/-
  Verification development for the core of the Coerce distributed actor runtime.

  Shallow embedding of the actor lifecycle loop (actor/lifecycle.rs,
  actor/context.rs), the remote request-correlation table and registry
  handlers (remote/actor/handler.rs), the shard host request routing
  (remote/cluster/sharding/host/request.rs) and the heartbeat ping handler
  (remote/net/client/ping.rs), together with the protobuf wire codec used by
  the RemoteEntityRequest message.

  Machine integers are modelled as Nat (with explicit bounds where overflow
  matters), byte buffers as List Nat with every element < 256, fallible
  operations as Option/Except, and a panic (Rust unwrap) as the `none` case
  of an outer Option layer.
-/
import Mathlib

namespace Coerce

/-! ### Association-table helpers

HashMap-backed tables (`RemoteHandler.requests`, `ShardHost.hosted_shards`,
etc.) are embedded as association lists; `insertKey` models
`HashMap::insert` (replacing any existing binding) and `eraseKey` models
`HashMap::remove`. -/

def lookupKey {κ α : Type} [DecidableEq κ] (k : κ) : List (κ × α) → Option α
  | [] => none
  | (k', v) :: rest => if k' = k then some v else lookupKey k rest

def eraseKey {κ α : Type} [DecidableEq κ] (k : κ) : List (κ × α) → List (κ × α)
  | [] => []
  | (k', v) :: rest => if k' = k then eraseKey k rest else (k', v) :: eraseKey k rest

def insertKey {κ α : Type} [DecidableEq κ] (k : κ) (v : α) (t : List (κ × α)) :
    List (κ × α) :=
  (k, v) :: eraseKey k t

/-! ### Actor lifecycle (actor/lifecycle.rs, actor/context.rs)

`ActorLoop::run` is embedded as a function from the actor's behaviour to the
ordered trace of lifecycle events it produces.  A message handler's only
status effect in the embedded handlers (`Handler<Stop>` sets `Stopping`,
`Handler<Status>` reads the status; per the spec an actor stops only when a
handler sets status to Stopping) is modelled by a Bool per message: `true`
when the handler sets status to `Stopping` (as `Handler<Stop>` does), `false`
otherwise.  Likewise `startedStops` records whether the `started` hook set
status to `Stopping`.  `msgs` is the finite sequence of envelopes the
mailbox delivers before it closes. -/

inductive ActorStatus
  | Starting
  | Started
  | Stopping
  | Stopped
deriving DecidableEq, Repr

/-- Position of a status in the lifecycle order `Starting, Started, Stopping, Stopped`. -/
def statusRank : ActorStatus → Nat
  | .Starting => 0
  | .Started => 1
  | .Stopping => 2
  | .Stopped => 3

/-- One observable event of `ActorLoop::run`. -/
inductive Ev
  | statusSet (s : ActorStatus)
  | startedHook
  | onStartSignal
  | handled (observed : ActorStatus)
  | stoppedHook
  | deregistered
deriving DecidableEq, Repr

/-- The main `while let Some(msg) = receiver.recv()` loop: each handler runs to
completion (observing the context status it leaves behind, which is `Started`
unless the handler itself set `Stopping`); after every handler the loop breaks
when the status is `Stopping`. -/
def mainLoop : List Bool → List Ev
  | [] => []
  | m :: rest =>
    if m then
      [Ev.statusSet .Stopping, Ev.handled .Stopping]
    else
      Ev.handled .Started :: mainLoop rest

/-- `ActorLoop::run` (actor/lifecycle.rs lines 52-147): create the context in
`Starting`, run the `started` hook, return immediately when the hook left the
status at `Stopping`; otherwise set `Started`, signal the start oneshot,
drain the mailbox, then set `Stopping`, run the `stopped` hook, set `Stopped`
and deregister from the scheduler when the actor is tracked. -/
def actorLoopRun (startedStops tracked : Bool) (msgs : List Bool) : List Ev :=
  [Ev.statusSet .Starting, Ev.startedHook] ++
    (if startedStops then
      [Ev.statusSet .Stopping]
    else
      [Ev.statusSet .Started, Ev.onStartSignal] ++ mainLoop msgs ++
        [Ev.statusSet .Stopping, Ev.stoppedHook, Ev.statusSet .Stopped] ++
        (if tracked then [Ev.deregistered] else []))

/-- Statuses observed by message handlers (and by the `Status` message
handler), in order. -/
def observedStatuses (trace : List Ev) : List ActorStatus :=
  trace.filterMap (fun e => match e with | Ev.handled s => some s | _ => none)

def countStoppedHook (trace : List Ev) : Nat :=
  trace.count Ev.stoppedHook

def countStartedHook (trace : List Ev) : Nat :=
  trace.count Ev.startedHook

/-- The largest rank among statuses set in a trace, at least `r`. -/
def bumpRank (r : Nat) (l : List Ev) : Nat :=
  l.foldl (fun acc e => match e with | Ev.statusSet s => max acc (statusRank s) | _ => acc) r

/-- Checks, along a trace, that every handler observation has a rank at least
that of every previously set status (`r` accumulates the sets seen so far). -/
def obsOk (r : Nat) : List Ev → Bool
  | [] => true
  | Ev.statusSet s :: rest => obsOk (max r (statusRank s)) rest
  | Ev.handled s :: rest => decide (r ≤ statusRank s) && obsOk r rest
  | _ :: rest => obsOk r rest

/-! ### UUID strings

`RequestId` is `uuid::Uuid`.  A `Uuid` value is embedded as the byte sequence
of its canonical textual form (`Uuid::to_string`: 36 bytes, lowercase
hexadecimal, hyphens at positions 8, 13, 18 and 23).  `uuidFromBytes` embeds
`Uuid::from_str` of the uuid crate, which accepts the hyphenated form, the
simple form (32 hexadecimal digits, no hyphens) and the URN form
(`urn:uuid:` followed by the hyphenated form), case-insensitively, and
normalises to the canonical value. -/

abbrev Uuid := List Nat

def isHexByte (b : Nat) : Bool :=
  (48 ≤ b && b ≤ 57) || (97 ≤ b && b ≤ 102) || (65 ≤ b && b ≤ 70)

def isLowerHexByte (b : Nat) : Bool :=
  (48 ≤ b && b ≤ 57) || (97 ≤ b && b ≤ 102)

def toLowerHexByte (b : Nat) : Nat :=
  if 65 ≤ b && b ≤ 70 then b + 32 else b

/-- Hyphenated UUID text: 36 bytes, hyphen (45) at positions 8, 13, 18, 23,
hexadecimal digits elsewhere (either case). -/
def isHyphenatedUuid (s : List Nat) : Bool :=
  decide (s.length = 36) &&
    (List.range 36).all (fun i =>
      if i = 8 || i = 13 || i = 18 || i = 23 then decide (s.getD i 0 = 45)
      else isHexByte (s.getD i 0))

/-- Simple UUID text: 32 hexadecimal digits. -/
def isSimpleUuid (s : List Nat) : Bool :=
  decide (s.length = 32) && s.all isHexByte

/-- The bytes of the ASCII text `urn:uuid:`. -/
def urnUuidHeader : List Nat := [117, 114, 110, 58, 117, 117, 105, 100, 58]

def hyphenate (s : List Nat) : List Nat :=
  s.take 8 ++ 45 :: (s.drop 8).take 4 ++ 45 :: (s.drop 12).take 4 ++
    45 :: (s.drop 16).take 4 ++ 45 :: s.drop 20

/-- `Uuid::from_str`, returning the canonical textual value. -/
def uuidFromBytes (s : List Nat) : Option Uuid :=
  if isHyphenatedUuid s then some (s.map toLowerHexByte)
  else if isSimpleUuid s then some (hyphenate (s.map toLowerHexByte))
  else if s.take 9 = urnUuidHeader && isHyphenatedUuid (s.drop 9) then
    some ((s.drop 9).map toLowerHexByte)
  else none

/-- A canonical UUID value: hyphenated and already lowercase. -/
def isCanonicalUuid (s : List Nat) : Bool :=
  isHyphenatedUuid s && s.all (fun b => isLowerHexByte b || b = 45)

/-- `Uuid::to_string` on the canonical representation. -/
def uuidToBytes (u : Uuid) : List Nat := u

/-! ### Protobuf wire format

The session wire protocol serialises messages with protocol buffers
(rust-protobuf v2, proto3 semantics).  The schema files are not under src/;
field numbers are modelled from the spec's field lists (§6), in order of
appearance.  `varintDecode` accepts up to 10 bytes (as rust-protobuf's
`read_raw_varint64` does) and truncates to 64 bits; the writer emits minimal
varints.  Parsing dispatches on the field tag, skips unknown fields (the
struct-level conversions drop retained unknown fields, so they are not kept),
rejects a known field at the wrong wire type, and validates UTF-8 on string
fields. -/

def varintEncodeAux : Nat → Nat → List Nat
  | 0, _ => []
  | fuel + 1, n => if n < 128 then [n] else (n % 128 + 128) :: varintEncodeAux fuel (n / 128)

/-- Minimal base-128 varint encoding (values < 2^70, i.e. at most 10 bytes). -/
def varintEncode (n : Nat) : List Nat := varintEncodeAux 10 n

def varintDecodeAux : Nat → Nat → Nat → List Nat → Option (Nat × List Nat)
  | 0, _, _, _ => none
  | _ + 1, _, _, [] => none
  | fuel + 1, acc, shift, b :: rest =>
    if b < 128 then some (acc + b * 2 ^ shift, rest)
    else varintDecodeAux fuel (acc + b % 128 * 2 ^ shift) (shift + 7) rest

/-- Base-128 varint decoding: at most 10 bytes, value truncated to 64 bits. -/
def varintDecode (bytes : List Nat) : Option (Nat × List Nat) :=
  (varintDecodeAux 10 0 0 bytes).map (fun p => (p.1 % 2 ^ 64, p.2))

inductive WireVal
  | vint (n : Nat)
  | lenDelim (payload : List Nat)
  | fixed64 (b : List Nat)
  | fixed32 (b : List Nat)
deriving DecidableEq, Repr

/-- Read one field: tag varint, then the value according to the wire type.
Field number 0 and the deprecated group wire types are rejected. -/
def readField (bytes : List Nat) : Option (Nat × WireVal × List Nat) :=
  match varintDecode bytes with
  | none => none
  | some (tag, rest) =>
    if tag / 8 = 0 then none
    else if tag % 8 = 0 then
      match varintDecode rest with
      | none => none
      | some (v, rest') => some (tag / 8, .vint v, rest')
    else if tag % 8 = 1 then
      if 8 ≤ rest.length then some (tag / 8, .fixed64 (rest.take 8), rest.drop 8)
      else none
    else if tag % 8 = 2 then
      match varintDecode rest with
      | none => none
      | some (len, rest') =>
        if len ≤ rest'.length then
          some (tag / 8, .lenDelim (rest'.take len), rest'.drop len)
        else none
    else if tag % 8 = 5 then
      if 4 ≤ rest.length then some (tag / 8, .fixed32 (rest.take 4), rest.drop 4)
      else none
    else none

/-- The message-parsing loop, generic in the per-message field action `upd`
(returning `none` to reject a known field at the wrong wire type or with an
invalid payload, and skipping unknown fields).  The fuel is the initial byte
count: every field consumes at least one byte. -/
def parseLoop {α : Type} (upd : α → Nat → WireVal → Option α) :
    Nat → α → List Nat → Option α
  | _, st, [] => some st
  | 0, _, _ :: _ => none
  | fuel + 1, st, b :: bs =>
    match readField (b :: bs) with
    | none => none
    | some (f, w, rest) =>
      match upd st f w with
      | none => none
      | some st' => parseLoop upd fuel st' rest

/-- One step of the standard RFC 3629 UTF-8 acceptor (rust-protobuf
validates string fields).  States: 0 start/accept; 1 expect one continuation
byte (0x80-0xBF); 2 expect two generic continuations; 3 after 0xE0 (next
0xA0-0xBF, then one continuation); 4 after 0xED (next 0x80-0x9F, then one
continuation); 5 after 0xF1-0xF3 (continuation, then two more); 6 after 0xF0
(next 0x90-0xBF, then two continuations); 7 after 0xF4 (next 0x80-0x8F,
then two continuations). -/
def utf8Next (st b : Nat) : Option Nat :=
  if st = 0 then
    if b < 128 then some 0
    else if 194 ≤ b && b ≤ 223 then some 1
    else if b = 224 then some 3
    else if (225 ≤ b && b ≤ 236) || (238 ≤ b && b ≤ 239) then some 2
    else if b = 237 then some 4
    else if b = 240 then some 6
    else if 241 ≤ b && b ≤ 243 then some 5
    else if b = 244 then some 7
    else none
  else if st = 1 then (if 128 ≤ b && b ≤ 191 then some 0 else none)
  else if st = 2 then (if 128 ≤ b && b ≤ 191 then some 1 else none)
  else if st = 3 then (if 160 ≤ b && b ≤ 191 then some 1 else none)
  else if st = 4 then (if 128 ≤ b && b ≤ 159 then some 1 else none)
  else if st = 5 then (if 128 ≤ b && b ≤ 191 then some 2 else none)
  else if st = 6 then (if 144 ≤ b && b ≤ 191 then some 2 else none)
  else if st = 7 then (if 128 ≤ b && b ≤ 143 then some 2 else none)
  else none

/-- RFC 3629 UTF-8 validity: the acceptor consumes the whole byte sequence
and ends in the start state. -/
def utf8Ok (s : List Nat) : Bool :=
  decide (s.foldl (fun st b => st.bind (fun st' => utf8Next st' b)) (some 0) = some 0)

def fieldTag (f wt : Nat) : Nat := f * 8 + wt

/-- Writer for a length-delimited field. -/
def writeLenField (f : Nat) (payload : List Nat) : List Nat :=
  varintEncode (fieldTag f 2) ++ varintEncode payload.length ++ payload

/-- proto3 writer: a scalar string/bytes field is omitted when empty. -/
def writeLenFieldOpt (f : Nat) (payload : List Nat) : List Nat :=
  if payload = [] then [] else writeLenField f payload

/-- proto3 writer: a varint scalar field is omitted when zero. -/
def writeVarintField (f n : Nat) : List Nat :=
  if n = 0 then [] else varintEncode (fieldTag f 0) ++ varintEncode n

/-! #### `sharding.RemoteEntityRequest` and its nested `Recipe`

Field numbers follow the spec's field list
`RemoteEntityRequest{request_id, actor_id, message_type, message, recipe?,
origin_node}` in order (the .proto schema files are out of the extracted
sources). -/

structure ProtoRecipe where
  recipe : List Nat := []
deriving DecidableEq, Repr

structure ProtoRemoteEntityRequest where
  request_id : List Nat := []
  actor_id : List Nat := []
  message_type : List Nat := []
  message : List Nat := []
  recipe : Option ProtoRecipe := none
  origin_node : Nat := 0
deriving DecidableEq, Repr

def updRecipe (st : ProtoRecipe) (f : Nat) (w : WireVal) : Option ProtoRecipe :=
  match f, w with
  | 1, .lenDelim s => some { recipe := s }
  | 1, _ => none
  | _, _ => some st

def protoParseRecipe (st : ProtoRecipe) (bytes : List Nat) : Option ProtoRecipe :=
  parseLoop updRecipe bytes.length st bytes

def updRemoteEntityRequest (st : ProtoRemoteEntityRequest) (f : Nat) (w : WireVal) :
    Option ProtoRemoteEntityRequest :=
  match f, w with
  | 1, .lenDelim s => if utf8Ok s then some { st with request_id := s } else none
  | 2, .lenDelim s => if utf8Ok s then some { st with actor_id := s } else none
  | 3, .lenDelim s => if utf8Ok s then some { st with message_type := s } else none
  | 4, .lenDelim s => some { st with message := s }
  | 5, .lenDelim s =>
    (protoParseRecipe (st.recipe.getD {}) s).map (fun r => { st with recipe := some r })
  | 6, .vint n => some { st with origin_node := n }
  | 1, _ | 2, _ | 3, _ | 4, _ | 5, _ | 6, _ => none
  | _, _ => some st

/-- `proto::RemoteEntityRequest::parse_from_bytes`. -/
def protoParseRemoteEntityRequest (bytes : List Nat) : Option ProtoRemoteEntityRequest :=
  parseLoop updRemoteEntityRequest bytes.length {} bytes

def protoWriteRecipe (r : ProtoRecipe) : List Nat :=
  writeLenFieldOpt 1 r.recipe

/-- Writer for the optional nested `recipe` message field: a `Some` recipe is
written (even when its own encoding is empty); `None` is omitted. -/
def writeRecipeField (rc : Option ProtoRecipe) : List Nat :=
  match rc with
  | none => []
  | some r => writeLenField 5 (protoWriteRecipe r)

/-- `proto::RemoteEntityRequest::write_to_bytes`. -/
def protoWriteRemoteEntityRequest (p : ProtoRemoteEntityRequest) : List Nat :=
  writeLenFieldOpt 1 p.request_id ++ writeLenFieldOpt 2 p.actor_id ++
    writeLenFieldOpt 3 p.message_type ++ writeLenFieldOpt 4 p.message ++
    writeRecipeField p.recipe ++ writeVarintField 6 p.origin_node

/-! #### `network.Pong` and `network.ActorAddress`

Field numbers modelled from the spec's field lists `Pong{message_id}` and
`ActorAddress{message_id, node_id, actor_id}` in order. -/

structure ProtoPong where
  message_id : List Nat := []
deriving DecidableEq, Repr

def updPong (st : ProtoPong) (f : Nat) (w : WireVal) : Option ProtoPong :=
  match f, w with
  | 1, .lenDelim s => if utf8Ok s then some { message_id := s } else none
  | 1, _ => none
  | _, _ => some st

/-- `Pong::parse_from_bytes`. -/
def protoParsePong (bytes : List Nat) : Option ProtoPong :=
  parseLoop updPong bytes.length {} bytes

structure ProtoActorAddress where
  message_id : List Nat := []
  node_id : Nat := 0
  actor_id : List Nat := []
deriving DecidableEq, Repr

def updActorAddress (st : ProtoActorAddress) (f : Nat) (w : WireVal) :
    Option ProtoActorAddress :=
  match f, w with
  | 1, .lenDelim s => if utf8Ok s then some { st with message_id := s } else none
  | 2, .vint n => some { st with node_id := n }
  | 3, .lenDelim s => if utf8Ok s then some { st with actor_id := s } else none
  | 1, _ | 2, _ | 3, _ => none
  | _, _ => some st

/-- `ActorAddress::parse_from_bytes`. -/
def protoParseActorAddress (bytes : List Nat) : Option ProtoActorAddress :=
  parseLoop updActorAddress bytes.length {} bytes

/-! ### Error kinds (§7) -/

inductive ActorRefErr
  | ActorUnavailable
  | InvalidRef
  | ResultSendFailed
  | ResultChannelClosed
  | SerializationErr
  | DeserializationErr
  | NotSupported
deriving DecidableEq, Repr

inductive MessageUnwrapErr
  | DeserializationErr
deriving DecidableEq, Repr

/-! ### `RemoteEntityRequest` and its wire codec
(remote/cluster/sharding/host/request.rs lines 183-238)

Strings (`ActorId`, message types) are embedded as their UTF-8 byte
sequences.  `from_remote_envelope` calls `Uuid::from_str(..).unwrap()` on the
decoded `request_id` field: the `unwrap` aborts (panics) when the field is
not a valid UUID string, which is modelled by the outer `Option` layer
(`none` = panic, so no `MessageUnwrapErr` is produced there). -/

abbrev ActorId := List Nat
abbrev NodeId := Nat
abbrev ShardId := Nat

structure RemoteEntityRequest where
  request_id : Uuid
  actor_id : ActorId
  message_type : List Nat
  message : List Nat
  recipe : Option (List Nat)
  origin_node : NodeId
deriving DecidableEq, Repr

def RemoteEntityRequest.from_remote_envelope (buffer : List Nat) :
    Option (Except MessageUnwrapErr RemoteEntityRequest) :=
  match protoParseRemoteEntityRequest buffer with
  | none => some (.error .DeserializationErr)
  | some p =>
    match uuidFromBytes p.request_id with
    | none => none  -- Uuid::from_str(&proto.request_id).unwrap() aborts
    | some u =>
      some (.ok
        { request_id := u
          actor_id := p.actor_id
          message_type := p.message_type
          message := p.message
          recipe := p.recipe.map (fun r => r.recipe)
          origin_node := p.origin_node })

/-- `as_remote_envelope`: build the proto value (request_id rendered with
`Uuid::to_string`) and serialise it.  `write_to_bytes` cannot fail on this
message, so the `Envelope::Remote` payload is returned directly. -/
def RemoteEntityRequest.as_remote_envelope (m : RemoteEntityRequest) : List Nat :=
  protoWriteRemoteEntityRequest
    { request_id := uuidToBytes m.request_id
      actor_id := m.actor_id
      message_type := m.message_type
      message := m.message
      recipe := m.recipe.map (fun r => { recipe := r })
      origin_node := m.origin_node }

/-- Well-formed struct values: the request id is a canonical UUID (the `Uuid`
type guarantees this in the source), strings are valid UTF-8, field sizes are
within protobuf's 2 GiB serialized-size limit, and the node id fits in a
`u64`. -/
def RemoteEntityRequest.wf (m : RemoteEntityRequest) : Prop :=
  isCanonicalUuid m.request_id = true ∧ utf8Ok m.actor_id = true ∧
    utf8Ok m.message_type = true ∧ m.actor_id.length < 2 ^ 32 ∧
    m.message_type.length < 2 ^ 32 ∧ m.message.length < 2 ^ 32 ∧
    (∀ r, m.recipe = some r → r.length < 2 ^ 32) ∧ m.origin_node < 2 ^ 64

/-! ### Request-correlation table: `RemoteHandler`
(remote/actor/handler.rs lines 58-74) -/

/-- An in-flight request record: the oneshot reply sink, by handle. -/
structure RemoteRequest where
  res_tx : Nat
deriving DecidableEq, Repr

structure RemoteHandler where
  requests : List (Uuid × RemoteRequest)
deriving DecidableEq, Repr

/-- `Handler<PushRequest>`: `self.requests.insert(message.0, message.1)`. -/
def RemoteHandler.handlePushRequest (h : RemoteHandler) (id : Uuid)
    (req : RemoteRequest) : RemoteHandler :=
  { requests := insertKey id req h.requests }

/-- `Handler<PopRequest>`: `self.requests.remove(&message.0)` — returns the
removed record, if any, and the table without it. -/
def RemoteHandler.handlePopRequest (h : RemoteHandler) (id : Uuid) :
    Option RemoteRequest × RemoteHandler :=
  (lookupKey id h.requests, { requests := eraseKey id h.requests })

/-! ### ShardHost request routing
(remote/cluster/sharding/host/request.rs lines 36-106) -/

structure EntityRequest where
  actor_id : ActorId
  message_type : List Nat
  message : List Nat
  recipe : Option (List Nat)
  result_channel : Option Nat
deriving DecidableEq, Repr

inductive ShardState
  | starting (request_buffer : List EntityRequest)
  | ready (shard_actor : Nat)
deriving DecidableEq, Repr

/-- `ShardHost` state.  `allocate` is `self.allocator.allocate(&actor_id)`;
the allocator implementation (a stable hash of the id modulo the configured
shard count, per the spec) lives outside the extracted sources and is kept
abstract as a function. -/
structure ShardHost where
  allocate : ActorId → ShardId
  hosted_shards : List (ShardId × ShardState)
  remote_shards : List (ShardId × Nat)
  requests_pending_shard_allocation : List (ShardId × List EntityRequest)
  requests_pending_leader_allocation : List EntityRequest

/-- The side effects the `EntityRequest` handler performs besides updating
the host state. -/
inductive ShardHostAction
  | forwardToShard (shard_actor : Nat) (req : EntityRequest)
  | sendRemote (shard_ref : Nat) (req : EntityRequest)
  | sendAllocateShard (shard_id : ShardId)
deriving DecidableEq, Repr

/-- `ShardHost::handle_request` on a hosted shard: append to a `Starting`
buffer, or forward to the `Ready` shard actor. -/
def ShardHost.handle_request (msg : EntityRequest) (shard_state : ShardState) :
    ShardState × List ShardHostAction :=
  match shard_state with
  | .starting request_buffer => (.starting (request_buffer ++ [msg]), [])
  | .ready actor => (.ready actor, [.forwardToShard actor msg])

/-- `Handler<EntityRequest> for ShardHost` (lines 67-106).  `hasLeader` is
`ctx.system().remote().current_leader().is_some()`; the in-place mutation of
a hosted shard's state through `get_mut` is rendered as a re-insert of the
updated state under the same shard id. -/
def ShardHost.handleEntityRequest (h : ShardHost) (hasLeader : Bool)
    (msg : EntityRequest) : ShardHost × List ShardHostAction :=
  match lookupKey (h.allocate msg.actor_id) h.hosted_shards with
  | some shard =>
    ({ h with
        hosted_shards := insertKey (h.allocate msg.actor_id)
          (ShardHost.handle_request msg shard).1 h.hosted_shards },
      (ShardHost.handle_request msg shard).2)
  | none =>
    match lookupKey (h.allocate msg.actor_id) h.remote_shards with
    | some shard_ref => (h, [.sendRemote shard_ref msg])
    | none =>
      if hasLeader then
        ({ h with
            requests_pending_shard_allocation :=
              insertKey (h.allocate msg.actor_id)
                ((lookupKey (h.allocate msg.actor_id)
                    h.requests_pending_shard_allocation).getD [] ++ [msg])
                h.requests_pending_shard_allocation },
          [.sendAllocateShard (h.allocate msg.actor_id)])
      else
        ({ h with
            requests_pending_leader_allocation :=
              h.requests_pending_leader_allocation ++ [msg] }, [])

/-- The wrapping step of `remote_entity_request` (lines 108-135): allocate a
fresh `RequestId`, register it (`system.push_request(request_id, tx)`), and
wrap the request.  Returns the registered id together with the notified
`RemoteEntityRequest`. -/
def remote_entity_request (fresh : Uuid) (origin_node : NodeId)
    (req : EntityRequest) : Uuid × RemoteEntityRequest :=
  (fresh,
    { request_id := fresh
      actor_id := req.actor_id
      message_type := req.message_type
      message := req.message
      recipe := req.recipe
      origin_node := origin_node })

/-- `AllocateShardResult` (allocation.rs, outside the extracted sources;
modelled from its use at request.rs line 93 and the spec's
`Allocated(shard_id, node_id)` answer). -/
inductive AllocateShardResult
  | allocated (shard_id : ShardId) (node_id : NodeId)
  | notAllocated
deriving DecidableEq, Repr

structure ShardAllocated where
  shard_id : ShardId
  node_id : NodeId
deriving DecidableEq, Repr

/-- The coordinator-reply callback spawned by the unallocated branch (lines
91-96): on `Ok(Allocated(shard_id, node_id))` the host self-notifies
`ShardAllocated`; any other outcome notifies nothing.  `none` models a
failed `leader.send`. -/
def allocateShardCallback (allocation : Option AllocateShardResult) :
    Option ShardAllocated :=
  match allocation with
  | some (.allocated s n) => some ⟨s, n⟩
  | _ => none

def ShardState.bufferedRequests : ShardState → List EntityRequest
  | .starting buf => buf
  | .ready _ => []

/-- Every request buffered somewhere in the host state. -/
def ShardHost.pendingRequests (h : ShardHost) : List EntityRequest :=
  (h.hosted_shards.map (fun p => p.2.bufferedRequests)).flatten ++
    (h.requests_pending_shard_allocation.map (fun p => p.2)).flatten ++
    h.requests_pending_leader_allocation

/-- Requests carried onward by the handler's side effects. -/
def actionRequests (acts : List ShardHostAction) : List EntityRequest :=
  acts.filterMap (fun a =>
    match a with
    | .forwardToShard _ r => some r
    | .sendRemote _ r => some r
    | .sendAllocateShard _ => none)

/-! ### RemoteRegistry: actor directory lookup
(remote/actor/handler.rs lines 184-266) -/

/-- Session events sent to peers (subset used here). -/
inductive SessionEvt
  | findActor (message_id : List Nat) (actor_id : ActorId)
  | ping (message_id : List Nat)
deriving DecidableEq, Repr

/-- `RemoteRegistry` state, as consumed by `Handler<GetActorNode>`:
`node_id` is `self.system.node_id()`; `getByKey` is
`self.nodes.get_by_key(&id).map(|n| n.id)` — the consistent-hash directory
lookup over the membership set (cluster/node.rs, outside the extracted
sources; `none` when no nodes are configured); `actors` is the local
`ActorId → NodeId` directory table. -/
structure RemoteRegistry where
  node_id : NodeId
  getByKey : ActorId → Option NodeId
  actors : List (ActorId × NodeId)

/-- What `Handler<GetActorNode>` does with a request. -/
inductive GetActorNodeOutcome
  | answerLocal (res : Option NodeId)
  | remoteLookup (target : NodeId) (registered_request : Uuid) (event : SessionEvt)
deriving DecidableEq, Repr

/-- `Handler<GetActorNode> for RemoteRegistry`: compute the directory node
(defaulting to the local node when no nodes are configured); answer from the
local table when a cached entry exists or the directory node is local;
otherwise allocate a fresh `RequestId` (`fresh`), register a oneshot under
it, and send a `FindActor` session event to the directory node. -/
def handleGetActorNode (st : RemoteRegistry) (id : ActorId) (fresh : Uuid) :
    GetActorNodeOutcome :=
  if (lookupKey id st.actors).isSome = true ∨
      (st.getByKey id).getD st.node_id = st.node_id then
    .answerLocal (lookupKey id st.actors)
  else
    .remoteLookup ((st.getByKey id).getD st.node_id) fresh
      (.findActor (uuidToBytes fresh) id)

/-- Translate a `FindActor` response: a zero node-id means "not found". -/
def findActorResponse (res : ProtoActorAddress) : Option NodeId :=
  if res.node_id = 0 then none else some res.node_id

/-- `RemoteResponse` (remote/actor/mod.rs, used at handler.rs line 246). -/
inductive RemoteResponse
  | ok (bytes : List Nat)
  | err (bytes : List Nat)
deriving DecidableEq, Repr

/-- State of the correlated oneshot awaited by the spawned lookup task:
still pending (no response yet), a received `RemoteResponse`, or a closed
channel. -/
inductive CorrelationOutcome
  | pending
  | received (r : RemoteResponse)
  | chanClosed
deriving DecidableEq, Repr

inductive GetActorNodeTaskResult
  | sent (v : Option NodeId)
  | aborted
  | stillWaiting
deriving DecidableEq, Repr

/-- The `match res_rx.await` of the spawned lookup task (handler.rs lines
245-262): an `Ok` response is decoded as `ActorAddress` and answered through
the caller's sink with the zero-node-id translation; a response that fails
to decode, an `Err` response or a closed channel aborts the task (panic);
while no response has arrived the task keeps waiting. -/
def getActorNodeTask (c : CorrelationOutcome) : GetActorNodeTaskResult :=
  match c with
  | .pending => .stillWaiting
  | .received (.ok bytes) =>
    match protoParseActorAddress bytes with
    | some addr => .sent (findActorResponse addr)
    | none => .aborted
  | .received (.err _) => .aborted
  | .chanClosed => .aborted

/-- Modelled from the spec: the caller-side deadline of a cross-node actor
lookup.  The code issuing `GetActorNode` and awaiting its reply sink under a
timeout is not under src/; per the spec every cross-node request is bounded
by a caller-supplied deadline and "a lookup that does not receive a response
within the caller's timeout surfaces `ActorUnavailable`".  `response` is the
answer delivered through the sink within the deadline, if any. -/
def actorLookupAwait (response : Option (Option NodeId)) :
    Except ActorRefErr (Option NodeId) :=
  match response with
  | some r => .ok r
  | none => .error .ActorUnavailable

/-! ### RemoteRegistry: node registration
(remote/actor/handler.rs lines 85-125 and 341-375) -/

/-- `RemoteNode` (cluster/node.rs, outside the extracted sources; fields per
the spec: `{NodeId, addr, tag, started_at}`). -/
structure RemoteNode where
  id : NodeId
  addr : List Nat
  tag : List Nat
  started_at : Option Nat
deriving DecidableEq, Repr

/-- Modelled from the spec: `self.nodes.add(node)` of the membership
structure (cluster/node.rs, outside the extracted sources) — insert the
node, replacing any entry with the same id. -/
def addNode (n : RemoteNode) (t : List RemoteNode) : List RemoteNode :=
  n :: t.filter (fun m => m.id ≠ n.id)

/-- `self.nodes.is_registered(node.id)`. -/
def isRegistered (id : NodeId) (t : List RemoteNode) : Bool :=
  t.any (fun m => m.id = id)

def lookupNode (id : NodeId) (t : List RemoteNode) : Option RemoteNode :=
  t.find? (fun m => m.id = id)

inductive ClusterEvent
  | nodeAdded (id : NodeId)
deriving DecidableEq, Repr

/-- `connect_all` (lines 341-375): try each new node in order; a successful
outbound client plus `Connect` handshake yields the (possibly enriched)
`RemoteNode`, which is collected; a failure (client creation error or a
handshake answered with `None`) is only logged.  `handshake` abstracts
`RemoteClient::new` + `client.send(Connect::new(..))`. -/
def connect_all (handshake : RemoteNode → Option RemoteNode)
    (nodes : List RemoteNode) : List RemoteNode :=
  nodes.filterMap handshake

/-- `Handler<RegisterNodes> for RemoteRegistry` (lines 86-124): filter the
nodes that are neither the local node nor already registered, connect to
them, register each node whose handshake succeeded; then, for every supplied
node, publish `NodeAdded` on the system topic and add the node to the
membership table. -/
def handleRegisterNodes (self_id : NodeId) (table : List RemoteNode)
    (handshake : RemoteNode → Option RemoteNode) (nodes : List RemoteNode) :
    List RemoteNode × List ClusterEvent :=
  let unregistered_nodes :=
    nodes.filter (fun n => n.id ≠ self_id && !isRegistered n.id table)
  let connected_nodes := connect_all handshake unregistered_nodes
  let table1 := connected_nodes.foldl (fun t n => addNode n t) table
  let table2 := nodes.foldl (fun t n => addNode n t) table1
  (table2, nodes.map (fun n => .nodeAdded n.id))

/-! ### RemoteClient heartbeat (remote/net/client/ping.rs lines 29-92) -/

/-- `ClientState` (remote/net/client/mod.rs, outside the extracted sources;
states per the spec's client state machine, with `Connected` carrying the
peer's node id as used at ping.rs line 43). -/
inductive ClientState
  | idle
  | connecting
  | connected (node_id : NodeId)
  | quarantined
deriving DecidableEq, Repr

/-- The `RemoteClient` fields consumed by `Handler<PingTick>`. -/
structure RemoteClient where
  state : Option ClientState
  remote_node_id : Option NodeId
deriving DecidableEq, Repr

/-- `PingResult` (remote/heartbeat.rs, outside the extracted sources;
variants per the spec: `Ok(pong, rtt, timestamp) | Timeout | Err |
Disconnected`). -/
inductive PingResult
  | ok (pong : ProtoPong) (rtt : Nat) (timestamp : Nat)
  | timeout
  | err
  | disconnected
deriving DecidableEq, Repr

/-- What `Handler<PingTick>` itself does (before the spawned reply task). -/
inductive PingTickEffect
  | skippedNoHeartbeat
  | skippedNoState
  | notifyDisconnected (node_id : NodeId)
  | skippedNotConnectedUnknownNode
  | pingWritten (node_id : NodeId) (registered_request : Uuid) (event : SessionEvt)
  | pingWriteFailed (registered_request : Uuid)
deriving DecidableEq, Repr

/-- `Handler<PingTick> for RemoteClient` (lines 31-91): without a heartbeat
actor the tick is skipped; without a state the handler returns; in a
non-`Connected` state the heartbeat actor is notified `Disconnected` when a
remote node id is known, otherwise nothing happens; in `Connected` a fresh
`RequestId` is registered and a `Ping` carrying it is written — only a
successful write spawns the reply task (`writeOk` abstracts
`self.write(ping_event, ctx)`). -/
def handlePingTick (c : RemoteClient) (heartbeatConfigured : Bool)
    (fresh : Uuid) (writeOk : Bool) : PingTickEffect :=
  if !heartbeatConfigured then .skippedNoHeartbeat
  else
    match c.state with
    | none => .skippedNoState
    | some (.connected node_id) =>
      if writeOk then .pingWritten node_id fresh (.ping (uuidToBytes fresh))
      else .pingWriteFailed fresh
    | some _ =>
      match c.remote_node_id with
      | some node_id => .notifyDisconnected node_id
      | none => .skippedNotConnectedUnknownNode

/-- Outcome of awaiting the `Pong` under `ping_timeout` (lines 67-87). -/
inductive PingOutcome
  | timeout
  | chanClosed
  | respErr (bytes : List Nat)
  | respOk (bytes : List Nat)
deriving DecidableEq, Repr

/-- The spawned reply task: a `Pong` arriving within the deadline is parsed
(`Pong::parse_from_bytes(&pong_bytes).unwrap()` — the `unwrap` aborts on a
payload that fails protobuf parsing, modelled by `none`) and reported as
`PingResult::Ok(pong, rtt, timestamp)`; an error response or a closed
channel reports `PingResult::Err`; an elapsed deadline reports
`PingResult::Timeout`. -/
def pingTaskResult (rtt timestamp : Nat) (outcome : PingOutcome) :
    Option PingResult :=
  match outcome with
  | .timeout => some .timeout
  | .chanClosed => some .err
  | .respErr _ => some .err
  | .respOk bytes => (protoParsePong bytes).map (fun pong => .ok pong rtt timestamp)

/-! ## Helper lemmas -/

/-! ### Association tables -/

theorem lookupKey_insertKey_self {κ α : Type} [DecidableEq κ] (k : κ) (v : α)
    (t : List (κ × α)) : lookupKey k (insertKey k v t) = some v := by
  simp [insertKey, lookupKey]

theorem lookupKey_eraseKey_self {κ α : Type} [DecidableEq κ] (k : κ)
    (t : List (κ × α)) : lookupKey k (eraseKey k t) = none := by
  induction t with
  | nil => rfl
  | cons p rest ih =>
    obtain ⟨k', v⟩ := p
    by_cases h : k' = k
    · simpa [eraseKey, h] using ih
    · simpa [eraseKey, lookupKey, h] using ih

theorem lookupKey_eraseKey_ne {κ α : Type} [DecidableEq κ] {k k' : κ}
    (h : k' ≠ k) (t : List (κ × α)) :
    lookupKey k' (eraseKey k t) = lookupKey k' t := by
  induction t with
  | nil => rfl
  | cons p rest ih =>
    obtain ⟨k₀, v⟩ := p
    by_cases h0 : k₀ = k
    · subst h0
      have hk : k₀ ≠ k' := fun hh => h hh.symm
      simp [eraseKey, lookupKey, hk, ih]
    · by_cases h1 : k₀ = k'
      · simp [eraseKey, lookupKey, h0, h1, h]
      · simp [eraseKey, lookupKey, h0, h1, ih]

theorem lookupKey_insertKey_ne {κ α : Type} [DecidableEq κ] {k k' : κ}
    (h : k' ≠ k) (v : α) (t : List (κ × α)) :
    lookupKey k' (insertKey k v t) = lookupKey k' t := by
  have hk : k ≠ k' := fun hh => h hh.symm
  simp [insertKey, lookupKey, hk, lookupKey_eraseKey_ne h]

/-! ### Actor lifecycle -/

theorem count_stoppedHook_mainLoop (msgs : List Bool) :
    (mainLoop msgs).count Ev.stoppedHook = 0 := by
  induction msgs with
  | nil => rfl
  | cons m rest ih =>
    by_cases h : m <;> simp [mainLoop, h, ih, List.count_cons]

theorem count_handled_tail (tracked : Bool) :
    ∀ s, (if tracked then [Ev.deregistered] else []).count (Ev.handled s) = 0 := by
  intro s; by_cases h : tracked <;> simp [h, List.count_cons]

theorem bumpRank_append (r : Nat) (a b : List Ev) :
    bumpRank r (a ++ b) = bumpRank (bumpRank r a) b := by
  simp [bumpRank, List.foldl_append]

theorem obsOk_append (r : Nat) (a b : List Ev) :
    obsOk r (a ++ b) = (obsOk r a && obsOk (bumpRank r a) b) := by
  induction a generalizing r with
  | nil => simp [obsOk, bumpRank]
  | cons e rest ih =>
    cases e with
    | statusSet s => simp [obsOk, bumpRank, ih]
    | handled s =>
      by_cases h : statusRank s < r
      · simp [obsOk, bumpRank, Nat.not_le.mpr h]
      · simp [obsOk, bumpRank, Nat.not_lt.mp h, ih]
    | startedHook => simpa [obsOk, bumpRank] using ih r
    | onStartSignal => simpa [obsOk, bumpRank] using ih r
    | stoppedHook => simpa [obsOk, bumpRank] using ih r
    | deregistered => simpa [obsOk, bumpRank] using ih r

theorem obsOk_mainLoop (msgs : List Bool) (r : Nat) (hr : r ≤ 1) :
    obsOk r (mainLoop msgs) = true := by
  induction msgs with
  | nil => rfl
  | cons m rest ih =>
    by_cases h : m
    · simp [mainLoop, h, obsOk, statusRank]
      omega
    · simp [mainLoop, h, obsOk, statusRank, ih, hr]

theorem obsOk_bridge (r : Nat) (l pre post : List Ev) (s : ActorStatus)
    (hok : obsOk r l = true) (hsplit : l = pre ++ Ev.handled s :: post) :
    r ≤ statusRank s ∧
      ∀ s', Ev.statusSet s' ∈ pre → statusRank s' ≤ statusRank s := by
  induction pre generalizing r l with
  | nil =>
    subst hsplit
    simp only [List.nil_append, obsOk, Bool.and_eq_true, decide_eq_true_eq] at hok
    exact ⟨hok.1, by simp⟩
  | cons e rest ih =>
    subst hsplit
    cases e with
    | statusSet s0 =>
      simp only [List.cons_append, obsOk] at hok
      obtain ⟨h1, h2⟩ := ih (max r (statusRank s0)) _ hok rfl
      refine ⟨le_trans (le_max_left _ _) h1, ?_⟩
      intro s' hs'
      rcases List.mem_cons.mp hs' with h | h
      · cases h
        exact le_trans (le_max_right _ _) h1
      · exact h2 s' h
    | handled s0 =>
      simp only [List.cons_append, obsOk, Bool.and_eq_true, decide_eq_true_eq] at hok
      obtain ⟨h1, h2⟩ := ih r _ hok.2 rfl
      refine ⟨h1, ?_⟩
      intro s' hs'
      rcases List.mem_cons.mp hs' with h | h
      · cases h
      · exact h2 s' h
    | startedHook =>
      simp only [List.cons_append, obsOk] at hok
      obtain ⟨h1, h2⟩ := ih r _ hok rfl
      refine ⟨h1, fun s' hs' => ?_⟩
      rcases List.mem_cons.mp hs' with h | h
      · cases h
      · exact h2 s' h
    | onStartSignal =>
      simp only [List.cons_append, obsOk] at hok
      obtain ⟨h1, h2⟩ := ih r _ hok rfl
      refine ⟨h1, fun s' hs' => ?_⟩
      rcases List.mem_cons.mp hs' with h | h
      · cases h
      · exact h2 s' h
    | stoppedHook =>
      simp only [List.cons_append, obsOk] at hok
      obtain ⟨h1, h2⟩ := ih r _ hok rfl
      refine ⟨h1, fun s' hs' => ?_⟩
      rcases List.mem_cons.mp hs' with h | h
      · cases h
      · exact h2 s' h
    | deregistered =>
      simp only [List.cons_append, obsOk] at hok
      obtain ⟨h1, h2⟩ := ih r _ hok rfl
      refine ⟨h1, fun s' hs' => ?_⟩
      rcases List.mem_cons.mp hs' with h | h
      · cases h
      · exact h2 s' h

theorem obsOk_actorLoopRun (ss tracked : Bool) (msgs : List Bool) :
    obsOk 0 (actorLoopRun ss tracked msgs) = true := by
  by_cases hss : ss
  · simp [actorLoopRun, hss, obsOk]
  · simp only [actorLoopRun, hss, if_false, List.cons_append, List.nil_append]
    simp only [obsOk, statusRank, Nat.max_self, Nat.zero_max, Nat.max_eq_right (Nat.zero_le 1)]
    have h1 : obsOk 1 (mainLoop msgs) = true := obsOk_mainLoop msgs 1 le_rfl
    have h3 : ∀ r : Nat,
        obsOk r [Ev.statusSet .Stopping, Ev.stoppedHook, Ev.statusSet .Stopped] = true := by
      intro r; simp [obsOk]
    have h4 : ∀ r : Nat, obsOk r (if tracked then [Ev.deregistered] else []) = true := by
      intro r; by_cases ht : tracked <;> simp [ht, obsOk]
    rw [obsOk_append, obsOk_append]
    simp [h1, h3, h4]

theorem count_startedHook_mainLoop (msgs : List Bool) :
    (mainLoop msgs).count Ev.startedHook = 0 := by
  induction msgs with
  | nil => rfl
  | cons m rest ih =>
    by_cases h : m <;> simp [mainLoop, h, ih, List.count_cons]

theorem observedStatuses_append (a b : List Ev) :
    observedStatuses (a ++ b) = observedStatuses a ++ observedStatuses b := by
  simp [observedStatuses]

theorem observedStatuses_mainLoop_mem (msgs : List Bool) :
    ∀ s ∈ observedStatuses (mainLoop msgs), 1 ≤ statusRank s := by
  induction msgs with
  | nil => intro s hs; simp [mainLoop, observedStatuses] at hs
  | cons m rest ih =>
    intro s hs
    by_cases h : m
    · simp [mainLoop, h, observedStatuses] at hs
      simp [hs, statusRank]
    · simp only [mainLoop, h, if_false, observedStatuses, List.filterMap_cons] at hs ⊢
      rcases List.mem_cons.mp hs with h' | h'
      · simp [h', statusRank]
      · exact ih s h'

theorem chain_observed_mainLoop (msgs : List Bool) :
    List.Chain' (fun a b => statusRank a ≤ statusRank b)
      (observedStatuses (mainLoop msgs)) := by
  induction msgs with
  | nil => simp [mainLoop, observedStatuses]
  | cons m rest ih =>
    by_cases h : m
    · simp [mainLoop, h, observedStatuses]
    · simp only [mainLoop, h, if_false, observedStatuses, List.filterMap_cons]
      refine List.chain'_cons'.mpr ⟨?_, ih⟩
      intro b hb
      have hmem : b ∈ observedStatuses (mainLoop rest) := List.mem_of_mem_head? hb
      simpa [statusRank] using observedStatuses_mainLoop_mem rest b hmem

theorem observedStatuses_actorLoopRun (ss tracked : Bool) (msgs : List Bool) :
    observedStatuses (actorLoopRun ss tracked msgs) =
      if ss then [] else observedStatuses (mainLoop msgs) := by
  by_cases hss : ss
  · simp [actorLoopRun, hss, observedStatuses]
  · simp only [actorLoopRun, hss, if_false, List.cons_append, List.nil_append]
    by_cases ht : tracked <;>
      simp [observedStatuses, ht, List.filterMap_append]

/-! ### Varint and protobuf-parse lemmas -/

theorem varintEncodeAux_length : ∀ fuel n, (varintEncodeAux fuel n).length ≤ fuel
  | 0, _ => by simp [varintEncodeAux]
  | fuel + 1, n => by
    by_cases h : n < 128
    · simp [varintEncodeAux, h]
    · have := varintEncodeAux_length fuel (n / 128)
      simp only [varintEncodeAux, h, if_false, List.length_cons]
      omega

theorem varintDecodeAux_encode (fuel : Nat) :
    ∀ (n acc shift f2 : Nat) (rest : List Nat),
      n < 2 ^ (7 * (fuel + 1)) → fuel + 1 ≤ f2 →
      varintDecodeAux f2 acc shift (varintEncodeAux (fuel + 1) n ++ rest) =
        some (acc + n * 2 ^ shift, rest) := by
  induction fuel with
  | zero =>
    intro n acc shift f2 rest hn hf
    have h : n < 128 := by
      have : (2 : Nat) ^ (7 * (0 + 1)) = 128 := by norm_num
      omega
    obtain ⟨g, rfl⟩ : ∃ g, f2 = g + 1 := ⟨f2 - 1, by omega⟩
    simp [varintEncodeAux, h, varintDecodeAux]
  | succ f ih =>
    intro n acc shift f2 rest hn hf
    by_cases h : n < 128
    · obtain ⟨g, rfl⟩ : ∃ g, f2 = g + 1 := ⟨f2 - 1, by omega⟩
      simp [varintEncodeAux, h, varintDecodeAux]
    · obtain ⟨g, rfl⟩ : ∃ g, f2 = g + 1 := ⟨f2 - 1, by omega⟩
      have hb : ¬ n % 128 + 128 < 128 := by omega
      have hdiv : n / 128 < 2 ^ (7 * (f + 1)) := by
        rw [Nat.div_lt_iff_lt_mul (by norm_num : (0 : Nat) < 128)]
        calc n < 2 ^ (7 * (f + 1 + 1)) := hn
          _ = 2 ^ (7 * (f + 1)) * 128 := by ring
      have hrec := ih (n / 128) (acc + n % 128 * 2 ^ shift) (shift + 7) g rest hdiv (by omega)
      have e1 : varintEncodeAux (f + 1 + 1) n =
          (n % 128 + 128) :: varintEncodeAux (f + 1) (n / 128) := by
        conv_lhs => rw [varintEncodeAux]
        rw [if_neg h]
      have h128 : (n % 128 + 128) % 128 = n % 128 := by omega
      have e2 : varintDecodeAux (g + 1) acc shift
            ((n % 128 + 128) :: (varintEncodeAux (f + 1) (n / 128) ++ rest)) =
          varintDecodeAux g (acc + n % 128 * 2 ^ shift) (shift + 7)
            (varintEncodeAux (f + 1) (n / 128) ++ rest) := by
        conv_lhs => rw [varintDecodeAux]
        rw [if_neg hb, h128]
      rw [e1, List.cons_append, e2, hrec]
      congr 2
      conv_rhs => rw [← Nat.mod_add_div n 128]
      ring

theorem varintDecode_encode (n : Nat) (hn : n < 2 ^ 64) (rest : List Nat) :
    varintDecode (varintEncode n ++ rest) = some (n, rest) := by
  have hn' : n < 2 ^ (7 * (9 + 1)) := by
    have hle : (2 : Nat) ^ 64 ≤ 2 ^ (7 * (9 + 1)) :=
      Nat.pow_le_pow_right (by norm_num) (by norm_num)
    omega
  have h := varintDecodeAux_encode 9 n 0 0 10 rest hn' le_rfl
  have hmod : n % 2 ^ 64 = n := Nat.mod_eq_of_lt hn
  have he : varintEncode n = varintEncodeAux (9 + 1) n := rfl
  rw [varintDecode, he, h]
  have hx : (0 + n * 2 ^ 0) % 2 ^ 64 = n := by
    rw [pow_zero, mul_one, Nat.zero_add]
    exact hmod
  simp only [Option.map_some']
  rw [hx]

theorem varintEncode_ne_nil (n : Nat) : varintEncode n ≠ [] := by
  have he : varintEncode n = varintEncodeAux (9 + 1) n := rfl
  rw [he, varintEncodeAux]
  by_cases h : n < 128 <;> simp [h]

theorem varintDecodeAux_consumes :
    ∀ (fuel acc shift : Nat) (bytes : List Nat) (v : Nat) (rest : List Nat),
      varintDecodeAux fuel acc shift bytes = some (v, rest) → rest.length < bytes.length := by
  intro fuel
  induction fuel with
  | zero => intro acc shift bytes v rest h; simp [varintDecodeAux] at h
  | succ f ih =>
    intro acc shift bytes v rest h
    cases bytes with
    | nil => simp [varintDecodeAux] at h
    | cons b bs =>
      by_cases hb : b < 128
      · simp [varintDecodeAux, hb] at h
        simp [h.2.symm]
      · simp only [varintDecodeAux, hb, if_false] at h
        have := ih _ _ _ _ _ h
        simp only [List.length_cons]
        omega

theorem varintDecode_consumes (bytes : List Nat) (v : Nat) (rest : List Nat)
    (h : varintDecode bytes = some (v, rest)) : rest.length < bytes.length := by
  unfold varintDecode at h
  cases haux : varintDecodeAux 10 0 0 bytes with
  | none => rw [haux] at h; simp at h
  | some p =>
    rw [haux] at h
    simp only [Option.map_some'] at h
    have hrest : p.2 = rest := by
      have := congrArg (fun q => Option.map Prod.snd q) h
      simpa using this
    exact hrest ▸ varintDecodeAux_consumes 10 0 0 bytes p.1 p.2 haux

theorem readField_consumes (bytes : List Nat) (f : Nat) (w : WireVal) (rest : List Nat)
    (h : readField bytes = some (f, w, rest)) : rest.length < bytes.length := by
  unfold readField at h
  split at h
  next => exact absurd h (by simp)
  next tag r1 h1 =>
    have hc1 := varintDecode_consumes bytes tag r1 h1
    by_cases h0 : tag / 8 = 0
    · rw [if_pos h0] at h; exact absurd h (by simp)
    rw [if_neg h0] at h
    by_cases hw0 : tag % 8 = 0
    · rw [if_pos hw0] at h
      split at h
      next => exact absurd h (by simp)
      next v2 r2 h2 =>
        have hc2 := varintDecode_consumes r1 v2 r2 h2
        simp only [Option.some.injEq, Prod.mk.injEq] at h
        obtain ⟨-, -, hr⟩ := h
        subst hr
        omega
    rw [if_neg hw0] at h
    by_cases hw1 : tag % 8 = 1
    · rw [if_pos hw1] at h
      by_cases hlen : 8 ≤ r1.length
      · rw [if_pos hlen] at h
        simp only [Option.some.injEq, Prod.mk.injEq] at h
        obtain ⟨-, -, hr⟩ := h
        subst hr
        simp only [List.length_drop]
        omega
      · rw [if_neg hlen] at h; exact absurd h (by simp)
    rw [if_neg hw1] at h
    by_cases hw2 : tag % 8 = 2
    · rw [if_pos hw2] at h
      split at h
      next => exact absurd h (by simp)
      next len r2 h2 =>
        have hc2 := varintDecode_consumes r1 len r2 h2
        by_cases hlen : len ≤ r2.length
        · rw [if_pos hlen] at h
          simp only [Option.some.injEq, Prod.mk.injEq] at h
          obtain ⟨-, -, hr⟩ := h
          subst hr
          simp only [List.length_drop]
          omega
        · rw [if_neg hlen] at h; exact absurd h (by simp)
    rw [if_neg hw2] at h
    by_cases hw5 : tag % 8 = 5
    · rw [if_pos hw5] at h
      by_cases hlen : 4 ≤ r1.length
      · rw [if_pos hlen] at h
        simp only [Option.some.injEq, Prod.mk.injEq] at h
        obtain ⟨-, -, hr⟩ := h
        subst hr
        simp only [List.length_drop]
        omega
      · rw [if_neg hlen] at h; exact absurd h (by simp)
    rw [if_neg hw5] at h
    exact absurd h (by simp)

theorem readField_lenChunk (f : Nat) (payload rest : List Nat) (hf : 1 ≤ f)
    (htag : fieldTag f 2 < 2 ^ 64) (hlen : payload.length < 2 ^ 64) :
    readField (writeLenField f payload ++ rest) = some (f, .lenDelim payload, rest) := by
  have e1 : writeLenField f payload ++ rest =
      varintEncode (fieldTag f 2) ++ (varintEncode payload.length ++ (payload ++ rest)) := by
    simp [writeLenField, List.append_assoc]
  have h0 : ¬ fieldTag f 2 / 8 = 0 := by simp only [fieldTag]; omega
  have hw0 : ¬ fieldTag f 2 % 8 = 0 := by simp only [fieldTag]; omega
  have hw1 : ¬ fieldTag f 2 % 8 = 1 := by simp only [fieldTag]; omega
  have hw2 : fieldTag f 2 % 8 = 2 := by simp only [fieldTag]; omega
  have hdiv : fieldTag f 2 / 8 = f := by simp only [fieldTag]; omega
  have hle : payload.length ≤ (payload ++ rest).length := by simp
  unfold readField
  rw [e1, varintDecode_encode _ htag]
  simp only []
  rw [if_neg h0, if_neg hw0, if_neg hw1, if_pos hw2, varintDecode_encode _ hlen]
  simp only []
  rw [if_pos hle, hdiv, List.take_left, List.drop_left]

theorem readField_vintChunk (f n : Nat) (rest : List Nat) (hf : 1 ≤ f)
    (htag : fieldTag f 0 < 2 ^ 64) (hn : n < 2 ^ 64) :
    readField (varintEncode (fieldTag f 0) ++ varintEncode n ++ rest) =
      some (f, .vint n, rest) := by
  have e1 : varintEncode (fieldTag f 0) ++ varintEncode n ++ rest =
      varintEncode (fieldTag f 0) ++ (varintEncode n ++ rest) := by
    simp [List.append_assoc]
  have h0 : ¬ fieldTag f 0 / 8 = 0 := by simp only [fieldTag]; omega
  have hw0 : fieldTag f 0 % 8 = 0 := by simp only [fieldTag]; omega
  have hdiv : fieldTag f 0 / 8 = f := by simp only [fieldTag]; omega
  unfold readField
  rw [e1, varintDecode_encode _ htag]
  simp only []
  rw [if_neg h0, if_pos hw0, varintDecode_encode _ hn]
  simp only []
  rw [hdiv]

theorem parseLoop_nil {α : Type} (upd : α → Nat → WireVal → Option α) (fuel : Nat) (st : α) :
    parseLoop upd fuel st [] = some st := by
  cases fuel <;> rfl

theorem parseLoop_congr {α : Type} (upd : α → Nat → WireVal → Option α) :
    ∀ (f1 f2 : Nat) (st : α) (bytes : List Nat), bytes.length ≤ f1 → bytes.length ≤ f2 →
      parseLoop upd f1 st bytes = parseLoop upd f2 st bytes := by
  intro f1
  induction f1 with
  | zero =>
    intro f2 st bytes h1 h2
    have hb : bytes = [] := List.eq_nil_of_length_eq_zero (by omega)
    subst hb
    rw [parseLoop_nil, parseLoop_nil]
  | succ g ih =>
    intro f2 st bytes h1 h2
    cases bytes with
    | nil => rw [parseLoop_nil, parseLoop_nil]
    | cons b bs =>
      obtain ⟨g2, rfl⟩ : ∃ g2, f2 = g2 + 1 :=
        ⟨f2 - 1, by simp only [List.length_cons] at h2; omega⟩
      simp only [parseLoop]
      cases hrf : readField (b :: bs) with
      | none => rfl
      | some t =>
        obtain ⟨f, w, rest⟩ := t
        have hcons := readField_consumes _ _ _ _ hrf
        simp only []
        cases hupd : upd st f w with
        | none => rfl
        | some st' =>
          simp only []
          apply ih
          · simp only [List.length_cons] at h1 hcons; omega
          · simp only [List.length_cons] at h2 hcons; omega

theorem parseLoop_step {α : Type} (upd : α → Nat → WireVal → Option α) (st st' : α)
    (bytes : List Nat) (f : Nat) (w : WireVal) (rest : List Nat) (fuel : Nat)
    (hrf : readField bytes = some (f, w, rest)) (hupd : upd st f w = some st')
    (hfuel : bytes.length ≤ fuel) :
    parseLoop upd fuel st bytes = parseLoop upd rest.length st' rest := by
  have hcons := readField_consumes _ _ _ _ hrf
  cases bytes with
  | nil => simp at hcons
  | cons b bs =>
    obtain ⟨g, rfl⟩ : ∃ g, fuel = g + 1 :=
      ⟨fuel - 1, by simp only [List.length_cons] at hfuel; omega⟩
    simp only [parseLoop]
    rw [hrf]
    simp only []
    rw [hupd]
    simp only []
    apply parseLoop_congr
    · simp only [List.length_cons] at hfuel hcons; omega
    · exact le_rfl

theorem parseLoop_lenChunkOpt {α : Type} (upd : α → Nat → WireVal → Option α) (st st' : α)
    (f : Nat) (payload rest : List Nat) (fuel : Nat) (hf : 1 ≤ f)
    (htag : fieldTag f 2 < 2 ^ 64) (hlen : payload.length < 2 ^ 64)
    (hupd : upd st f (.lenDelim payload) = some st') (hdef : payload = [] → st' = st)
    (hfuel : (writeLenFieldOpt f payload ++ rest).length ≤ fuel) :
    parseLoop upd fuel st (writeLenFieldOpt f payload ++ rest) =
      parseLoop upd rest.length st' rest := by
  by_cases hp : payload = []
  · rw [hdef hp]
    simp only [writeLenFieldOpt, hp, if_pos rfl, List.nil_append] at hfuel ⊢
    exact parseLoop_congr upd fuel rest.length st rest hfuel le_rfl
  · simp only [writeLenFieldOpt, hp, if_neg hp, if_false] at hfuel ⊢
    exact parseLoop_step upd st st' _ f (.lenDelim payload) rest fuel
      (readField_lenChunk f payload rest hf htag hlen) hupd hfuel

theorem parseLoop_vintChunkOpt {α : Type} (upd : α → Nat → WireVal → Option α) (st st' : α)
    (f n : Nat) (rest : List Nat) (fuel : Nat) (hf : 1 ≤ f)
    (htag : fieldTag f 0 < 2 ^ 64) (hn : n < 2 ^ 64)
    (hupd : upd st f (.vint n) = some st') (hdef : n = 0 → st' = st)
    (hfuel : (writeVarintField f n ++ rest).length ≤ fuel) :
    parseLoop upd fuel st (writeVarintField f n ++ rest) =
      parseLoop upd rest.length st' rest := by
  by_cases hz : n = 0
  · rw [hdef hz]
    simp only [writeVarintField, hz, if_pos rfl, List.nil_append] at hfuel ⊢
    exact parseLoop_congr upd fuel rest.length st rest hfuel le_rfl
  · simp only [writeVarintField, hz, if_neg hz, if_false] at hfuel ⊢
    exact parseLoop_step upd st st' _ f (.vint n) rest fuel
      (readField_vintChunk f n rest hf htag hn) hupd hfuel

theorem protoWriteRecipe_length (r : ProtoRecipe) :
    (protoWriteRecipe r).length ≤ 20 + r.recipe.length := by
  by_cases h : r.recipe = []
  · simp [protoWriteRecipe, writeLenFieldOpt, h]
  · have h1 := varintEncodeAux_length 10 (fieldTag 1 2)
    have h2 := varintEncodeAux_length 10 r.recipe.length
    simp only [protoWriteRecipe, writeLenFieldOpt, h, if_false, writeLenField,
      List.length_append, varintEncode] at h1 h2 ⊢
    omega

theorem protoParseRecipe_write (rb : List Nat) (hlen : rb.length < 2 ^ 32) :
    protoParseRecipe {} (protoWriteRecipe { recipe := rb }) = some { recipe := rb } := by
  by_cases h : rb = []
  · subst h
    rfl
  · unfold protoParseRecipe protoWriteRecipe
    rw [← List.append_nil (writeLenFieldOpt 1 rb)]
    rw [parseLoop_lenChunkOpt updRecipe {} { recipe := rb } 1 rb [] _ (by norm_num)
      (by norm_num [fieldTag]) (lt_trans hlen (by norm_num)) rfl
      (fun hh => absurd hh h) le_rfl]
    exact parseLoop_nil _ _ _

theorem parseLoop_recipeChunk (st : ProtoRemoteEntityRequest) (rc : Option ProtoRecipe)
    (rest : List Nat) (fuel : Nat) (hst : st.recipe = none)
    (hlen : ∀ r, rc = some r → r.recipe.length < 2 ^ 32)
    (hfuel : (writeRecipeField rc ++ rest).length ≤ fuel) :
    parseLoop updRemoteEntityRequest fuel st (writeRecipeField rc ++ rest) =
      parseLoop updRemoteEntityRequest rest.length { st with recipe := rc } rest := by
  cases rc with
  | none =>
    have he : { st with recipe := none } = st := by
      obtain ⟨a, b, c, d, e, g⟩ := st
      simp only at hst
      rw [hst]
    simp only [writeRecipeField, List.nil_append] at hfuel ⊢
    rw [he]
    exact parseLoop_congr _ fuel rest.length st rest hfuel le_rfl
  | some r =>
    obtain ⟨rb⟩ := r
    have hb : rb.length < 2 ^ 32 := by
      have := hlen ⟨rb⟩ rfl
      simpa using this
    have hup : updRemoteEntityRequest st 5 (.lenDelim (protoWriteRecipe ⟨rb⟩)) =
        some { st with recipe := some ⟨rb⟩ } := by
      have e : updRemoteEntityRequest st 5 (.lenDelim (protoWriteRecipe ⟨rb⟩)) =
          (protoParseRecipe (st.recipe.getD {}) (protoWriteRecipe ⟨rb⟩)).map
            (fun r => { st with recipe := some r }) := rfl
      rw [e, hst, Option.getD_none, protoParseRecipe_write rb hb, Option.map_some']
    have hlen2 : (protoWriteRecipe ⟨rb⟩).length < 2 ^ 64 := by
      have hwl := protoWriteRecipe_length ⟨rb⟩
      simp only at hwl
      have h32 : (20 : Nat) + 2 ^ 32 < 2 ^ 64 := by norm_num
      omega
    simp only [writeRecipeField] at hfuel ⊢
    exact parseLoop_step _ st _ _ 5 (.lenDelim (protoWriteRecipe ⟨rb⟩)) rest fuel
      (readField_lenChunk 5 _ rest (by norm_num) (by norm_num [fieldTag]) hlen2) hup hfuel

theorem protoParse_protoWrite (p : ProtoRemoteEntityRequest)
    (h1 : utf8Ok p.request_id = true) (h2 : utf8Ok p.actor_id = true)
    (h3 : utf8Ok p.message_type = true)
    (l1 : p.request_id.length < 2 ^ 32) (l2 : p.actor_id.length < 2 ^ 32)
    (l3 : p.message_type.length < 2 ^ 32) (l4 : p.message.length < 2 ^ 32)
    (l5 : ∀ r, p.recipe = some r → r.recipe.length < 2 ^ 32)
    (l6 : p.origin_node < 2 ^ 64) :
    protoParseRemoteEntityRequest (protoWriteRemoteEntityRequest p) = some p := by
  obtain ⟨rid, aid, mt, mb, rc, onode⟩ := p
  simp only at h1 h2 h3 l1 l2 l3 l4 l5 l6
  unfold protoParseRemoteEntityRequest protoWriteRemoteEntityRequest
  simp only [List.append_assoc]
  rw [parseLoop_lenChunkOpt updRemoteEntityRequest _ ⟨rid, [], [], [], none, 0⟩ 1 rid _ _
    (by norm_num) (by norm_num [fieldTag]) (lt_trans l1 (by norm_num))
    (by
      have e : updRemoteEntityRequest ⟨[], [], [], [], none, 0⟩ 1 (.lenDelim rid) =
          if utf8Ok rid = true then some ⟨rid, [], [], [], none, 0⟩ else none := rfl
      rw [e, if_pos h1]) (fun hh => by rw [hh]) le_rfl]
  rw [parseLoop_lenChunkOpt updRemoteEntityRequest _ ⟨rid, aid, [], [], none, 0⟩ 2 aid _ _
    (by norm_num) (by norm_num [fieldTag]) (lt_trans l2 (by norm_num))
    (by
      have e : updRemoteEntityRequest ⟨rid, [], [], [], none, 0⟩ 2 (.lenDelim aid) =
          if utf8Ok aid = true then some ⟨rid, aid, [], [], none, 0⟩ else none := rfl
      rw [e, if_pos h2]) (fun hh => by rw [hh]) le_rfl]
  rw [parseLoop_lenChunkOpt updRemoteEntityRequest _ ⟨rid, aid, mt, [], none, 0⟩ 3 mt _ _
    (by norm_num) (by norm_num [fieldTag]) (lt_trans l3 (by norm_num))
    (by
      have e : updRemoteEntityRequest ⟨rid, aid, [], [], none, 0⟩ 3 (.lenDelim mt) =
          if utf8Ok mt = true then some ⟨rid, aid, mt, [], none, 0⟩ else none := rfl
      rw [e, if_pos h3]) (fun hh => by rw [hh]) le_rfl]
  rw [parseLoop_lenChunkOpt updRemoteEntityRequest ⟨rid, aid, mt, [], none, 0⟩
    ⟨rid, aid, mt, mb, none, 0⟩ 4 mb _ _
    (by norm_num) (by norm_num [fieldTag]) (lt_trans l4 (by norm_num))
    (show updRemoteEntityRequest ⟨rid, aid, mt, [], none, 0⟩ 4 (.lenDelim mb) =
      some ⟨rid, aid, mt, mb, none, 0⟩ from rfl) (fun hh => by rw [hh]) le_rfl]
  rw [parseLoop_recipeChunk ⟨rid, aid, mt, mb, none, 0⟩ rc _ _ rfl l5 le_rfl]
  rw [← List.append_nil (writeVarintField 6 onode)]
  rw [parseLoop_vintChunkOpt updRemoteEntityRequest ⟨rid, aid, mt, mb, rc, 0⟩
    ⟨rid, aid, mt, mb, rc, onode⟩ 6 onode _ _
    (by norm_num) (by norm_num [fieldTag]) l6
    (show updRemoteEntityRequest ⟨rid, aid, mt, mb, rc, 0⟩ 6 (.vint onode) =
      some ⟨rid, aid, mt, mb, rc, onode⟩ from rfl) (fun hh => by rw [hh]) le_rfl]
  exact parseLoop_nil _ _ _

/-! ### UUID lemmas -/

theorem toLowerHexByte_fixed (b : Nat) (h : isLowerHexByte b = true ∨ b = 45) :
    toLowerHexByte b = b := by
  rcases h with h | h
  · simp only [isLowerHexByte, Bool.or_eq_true, Bool.and_eq_true, decide_eq_true_eq] at h
    simp only [toLowerHexByte, Bool.and_eq_true, decide_eq_true_eq]
    rw [if_neg]
    omega
  · subst h
    rfl

theorem map_toLower_canonical (s : List Nat)
    (h : s.all (fun b => isLowerHexByte b || b = 45) = true) :
    s.map toLowerHexByte = s := by
  induction s with
  | nil => rfl
  | cons b rest ih =>
    simp only [List.all_cons, Bool.and_eq_true] at h
    have hb : isLowerHexByte b = true ∨ b = 45 := by
      have := h.1
      simp only [Bool.or_eq_true, decide_eq_true_eq] at this
      exact this
    simp only [List.map_cons, toLowerHexByte_fixed b hb, ih h.2]

theorem uuidFromBytes_canonical (u : Uuid) (h : isCanonicalUuid u = true) :
    uuidFromBytes u = some u := by
  unfold isCanonicalUuid at h
  simp only [Bool.and_eq_true] at h
  obtain ⟨hh, hall⟩ := h
  unfold uuidFromBytes
  rw [if_pos hh, map_toLower_canonical u hall]

theorem utf8Ok_of_ascii (s : List Nat) (h : ∀ b ∈ s, b < 128) : utf8Ok s = true := by
  induction s with
  | nil => rfl
  | cons b rest ih =>
    have hb : b < 128 := h b (List.mem_cons_self b rest)
    have hnext : utf8Next 0 b = some 0 := by
      unfold utf8Next
      rw [if_pos rfl, if_pos hb]
    unfold utf8Ok at ih ⊢
    simp only [List.foldl_cons, Option.some_bind, hnext]
    exact ih (fun c hc => h c (List.mem_cons_of_mem b hc))

theorem canonical_ascii (u : Uuid) (h : isCanonicalUuid u = true) :
    ∀ b ∈ u, b < 128 := by
  unfold isCanonicalUuid at h
  simp only [Bool.and_eq_true, List.all_eq_true] at h
  intro b hb
  have := h.2 b hb
  simp only [Bool.or_eq_true, decide_eq_true_eq, isLowerHexByte, Bool.and_eq_true] at this
  omega

theorem canonical_length (u : Uuid) (h : isCanonicalUuid u = true) : u.length = 36 := by
  unfold isCanonicalUuid isHyphenatedUuid at h
  simp only [Bool.and_eq_true, decide_eq_true_eq] at h
  exact h.1.1

theorem from_as_roundtrip (m : RemoteEntityRequest) (hwf : m.wf) :
    RemoteEntityRequest.from_remote_envelope (RemoteEntityRequest.as_remote_envelope m) =
      some (.ok m) := by
  obtain ⟨hcan, hu2, hu3, hl2, hl3, hl4, hl5, hl6⟩ := hwf
  obtain ⟨rid, aid, mt, mb, rc, onode⟩ := m
  simp only at hcan hu2 hu3 hl2 hl3 hl4 hl5 hl6
  unfold RemoteEntityRequest.as_remote_envelope RemoteEntityRequest.from_remote_envelope
  simp only [uuidToBytes]
  rw [protoParse_protoWrite ⟨rid, aid, mt, mb, Option.map (fun r => { recipe := r }) rc, onode⟩
    (utf8Ok_of_ascii rid (canonical_ascii rid hcan)) hu2 hu3
    (by rw [canonical_length rid hcan]; norm_num) hl2 hl3 hl4
    (by
      intro r hr
      cases rc with
      | none => simp at hr
      | some rb =>
        simp only [Option.map_some'] at hr
        have hrr : ({ recipe := rb } : ProtoRecipe) = r := Option.some.inj hr
        rw [← hrr]
        simpa using hl5 rb rfl)
    hl6]
  simp only []
  rw [uuidFromBytes_canonical rid hcan]
  simp only []
  cases rc <;> rfl

/-! ### ShardHost computation lemmas -/

theorem handleEntityRequest_hosted (h : ShardHost) (hasLeader : Bool) (msg : EntityRequest)
    (shard : ShardState)
    (hlk : lookupKey (h.allocate msg.actor_id) h.hosted_shards = some shard) :
    h.handleEntityRequest hasLeader msg =
      ({ h with
          hosted_shards := insertKey (h.allocate msg.actor_id)
            (ShardHost.handle_request msg shard).1 h.hosted_shards },
        (ShardHost.handle_request msg shard).2) := by
  unfold ShardHost.handleEntityRequest
  rw [hlk]

theorem handleEntityRequest_remote (h : ShardHost) (hasLeader : Bool) (msg : EntityRequest)
    (r : Nat) (h1 : lookupKey (h.allocate msg.actor_id) h.hosted_shards = none)
    (h2 : lookupKey (h.allocate msg.actor_id) h.remote_shards = some r) :
    h.handleEntityRequest hasLeader msg = (h, [.sendRemote r msg]) := by
  unfold ShardHost.handleEntityRequest
  rw [h1]
  simp only []
  rw [h2]

theorem handleEntityRequest_alloc (h : ShardHost) (msg : EntityRequest)
    (h1 : lookupKey (h.allocate msg.actor_id) h.hosted_shards = none)
    (h2 : lookupKey (h.allocate msg.actor_id) h.remote_shards = none) :
    h.handleEntityRequest true msg =
      ({ h with
          requests_pending_shard_allocation :=
            insertKey (h.allocate msg.actor_id)
              ((lookupKey (h.allocate msg.actor_id)
                  h.requests_pending_shard_allocation).getD [] ++ [msg])
              h.requests_pending_shard_allocation },
        [.sendAllocateShard (h.allocate msg.actor_id)]) := by
  unfold ShardHost.handleEntityRequest
  rw [h1]
  simp only []
  rw [h2]
  simp

theorem handleEntityRequest_noleader (h : ShardHost) (msg : EntityRequest)
    (h1 : lookupKey (h.allocate msg.actor_id) h.hosted_shards = none)
    (h2 : lookupKey (h.allocate msg.actor_id) h.remote_shards = none) :
    h.handleEntityRequest false msg =
      ({ h with
          requests_pending_leader_allocation :=
            h.requests_pending_leader_allocation ++ [msg] }, []) := by
  unfold ShardHost.handleEntityRequest
  rw [h1]
  simp only []
  rw [h2]
  simp

theorem mem_pendingRequests_hosted (h : ShardHost) (sid : ShardId)
    (buf : List EntityRequest) (msg : EntityRequest) (hm : msg ∈ buf) :
    msg ∈ ShardHost.pendingRequests
      { h with hosted_shards := insertKey sid (.starting buf) h.hosted_shards } := by
  simp only [ShardHost.pendingRequests, insertKey, List.map_cons,
    ShardState.bufferedRequests, List.flatten_cons, List.mem_append]
  tauto

theorem mem_pendingRequests_alloc (h : ShardHost) (sid : ShardId)
    (buf : List EntityRequest) (msg : EntityRequest) (hm : msg ∈ buf) :
    msg ∈ ShardHost.pendingRequests
      { h with requests_pending_shard_allocation :=
          insertKey sid buf h.requests_pending_shard_allocation } := by
  simp only [ShardHost.pendingRequests, insertKey, List.map_cons, List.flatten_cons,
    List.mem_append]
  tauto

theorem mem_pendingRequests_leader (h : ShardHost) (msg : EntityRequest) :
    msg ∈ ShardHost.pendingRequests
      { h with requests_pending_leader_allocation :=
          h.requests_pending_leader_allocation ++ [msg] } := by
  simp only [ShardHost.pendingRequests, List.mem_append]
  right
  simp

/-! ### Membership-table lemmas -/

theorem isRegistered_addNode (i : NodeId) (m : RemoteNode) (t : List RemoteNode)
    (h : isRegistered i t = true) : isRegistered i (addNode m t) = true := by
  simp only [isRegistered, List.any_eq_true, decide_eq_true_eq] at h ⊢
  obtain ⟨x, hx, hxi⟩ := h
  by_cases hxm : x.id = m.id
  · refine ⟨m, List.mem_cons_self m _, ?_⟩
    rw [← hxm]
    exact hxi
  · refine ⟨x, ?_, hxi⟩
    simp only [addNode, List.mem_cons, List.mem_filter]
    right
    exact ⟨hx, by simp [hxm]⟩

theorem isRegistered_foldl (i : NodeId) (l : List RemoteNode) (t : List RemoteNode)
    (h : isRegistered i t = true) :
    isRegistered i (l.foldl (fun acc n => addNode n acc) t) = true := by
  induction l generalizing t with
  | nil => exact h
  | cons m rest ih => exact ih _ (isRegistered_addNode i m t h)

theorem isRegistered_self_addNode (m : RemoteNode) (t : List RemoteNode) :
    isRegistered m.id (addNode m t) = true := by
  simp [addNode, isRegistered]

theorem foldl_addNode_mem (nodes : List RemoteNode) (t : List RemoteNode) :
    ∀ n ∈ nodes, isRegistered n.id (nodes.foldl (fun acc m => addNode m acc) t) = true := by
  induction nodes generalizing t with
  | nil => intro n hn; simp at hn
  | cons m rest ih =>
    intro n hn
    rcases List.mem_cons.mp hn with rfl | hn'
    · exact isRegistered_foldl _ rest _ (isRegistered_self_addNode n t)
    · exact ih _ n hn'

/-! ## Claim theorems -/

/-- C2.  The claim states that for every actor whose `started` hook returns,
the `stopped` hook runs exactly once — including when the hook set status to
`Stopping`.  This is false on the code: `ActorLoop::run` returns right after
the `started` hook when the status is `Stopping` (lifecycle.rs lines 83-86),
so the `stopped` hook never runs on that path.  Concretely, for
`startedStops = true` the trace contains no `stoppedHook` event. -/
theorem actor_loop_stopped_hook_cex :
    ¬ ∀ (startedStops tracked : Bool) (msgs : List Bool),
        countStoppedHook (actorLoopRun startedStops tracked msgs) = 1 := by
  intro h
  exact absurd (h true true []) (by decide)

/-- C2 (amended).  If the `started` hook returns without setting status to
`Stopping`, the `stopped` hook runs exactly once (steps 5-7 of the loop
execute); if the hook sets status to `Stopping`, `ActorLoop::run` returns
immediately and the `stopped` hook does not run.  The `started` hook runs
exactly once in every case. -/
theorem actor_loop_stopped_hook (tracked : Bool) (msgs : List Bool) :
    countStoppedHook (actorLoopRun false tracked msgs) = 1 ∧
      countStoppedHook (actorLoopRun true tracked msgs) = 0 ∧
      ∀ startedStops : Bool,
        countStartedHook (actorLoopRun startedStops tracked msgs) = 1 := by
  refine ⟨?_, ?_, ?_⟩
  · by_cases ht : tracked <;>
      simp [actorLoopRun, countStoppedHook, ht, List.count_append, List.count_cons,
        count_stoppedHook_mainLoop]
  · simp [actorLoopRun, countStoppedHook, List.count_cons]
  · intro ss
    by_cases hss : ss <;> by_cases ht : tracked <;>
      simp [actorLoopRun, countStartedHook, hss, ht, List.count_append, List.count_cons,
        count_startedHook_mainLoop]

/-- C3.  The sequence of status values observed by an actor's message
handlers (including the `Status` message handler) is monotone along the
order `Starting, Started, Stopping, Stopped`, and no handler observes a
status earlier in that order after a later one was set: any `statusSet s'`
preceding a handler observation of `s` in the loop trace satisfies
`statusRank s' ≤ statusRank s`. -/
theorem actor_status_monotone (ss tracked : Bool) (msgs : List Bool) :
    List.Chain' (fun a b => statusRank a ≤ statusRank b)
        (observedStatuses (actorLoopRun ss tracked msgs)) ∧
      ∀ (pre post : List Ev) (s s' : ActorStatus),
        actorLoopRun ss tracked msgs = pre ++ Ev.handled s :: post →
        Ev.statusSet s' ∈ pre → statusRank s' ≤ statusRank s := by
  constructor
  · rw [observedStatuses_actorLoopRun]
    by_cases hss : ss
    · simp [hss]
    · simpa [hss] using chain_observed_mainLoop msgs
  · intro pre post s s' hsplit hmem
    exact (obsOk_bridge 0 _ pre post s (obsOk_actorLoopRun ss tracked msgs) hsplit).2 s' hmem

/-- Witness for C3: a run with one stopping message; the handler that set
`Stopping` observes it after `Started` was set. -/
theorem actor_status_monotone_witness :
    actorLoopRun false false [true] =
        [Ev.statusSet .Starting, Ev.startedHook, Ev.statusSet .Started, Ev.onStartSignal,
          Ev.statusSet .Stopping] ++ Ev.handled .Stopping ::
          [Ev.statusSet .Stopping, Ev.stoppedHook, Ev.statusSet .Stopped] ∧
      statusRank .Started ≤ statusRank .Stopping :=
  ⟨by decide,
    (actor_status_monotone false false [true]).2
      [Ev.statusSet .Starting, Ev.startedHook, Ev.statusSet .Started, Ev.onStartSignal,
        Ev.statusSet .Stopping]
      [Ev.statusSet .Stopping, Ev.stoppedHook, Ev.statusSet .Stopped]
      .Stopping .Started (by decide) (by decide)⟩

/-- C4.  In the `RemoteHandler` correlation table, `PushRequest(id, sink)`
inserts the sink under `id`; `PopRequest(id)` returns the sink when one is
present and removes it; and after a `PopRequest(id)` that returned a sink, a
second `PopRequest(id)` with no intervening push returns nothing. -/
theorem remote_handler_request_correlation :
    (∀ (h : RemoteHandler) (id : Uuid) (req : RemoteRequest),
        lookupKey id (h.handlePushRequest id req).requests = some req) ∧
      (∀ (h : RemoteHandler) (id : Uuid) (req : RemoteRequest),
        lookupKey id h.requests = some req → (h.handlePopRequest id).1 = some req) ∧
      (∀ (h : RemoteHandler) (id : Uuid),
        lookupKey id ((h.handlePopRequest id).2).requests = none) ∧
      ∀ (h : RemoteHandler) (id : Uuid) (req : RemoteRequest),
        (h.handlePopRequest id).1 = some req →
        (RemoteHandler.handlePopRequest (h.handlePopRequest id).2 id).1 = none := by
  refine ⟨?_, ?_, ?_, ?_⟩
  · intro h id req
    exact lookupKey_insertKey_self id req h.requests
  · intro h id req hl
    simpa [RemoteHandler.handlePopRequest] using hl
  · intro h id
    simpa [RemoteHandler.handlePopRequest] using lookupKey_eraseKey_self id h.requests
  · intro h id req _
    simpa [RemoteHandler.handlePopRequest] using lookupKey_eraseKey_self id h.requests

/-- Witness for C4: a concrete pop that returns the sink, after which the
second pop returns nothing. -/
theorem remote_handler_request_correlation_witness :
    (RemoteHandler.handlePopRequest ⟨[([48], ⟨5⟩)]⟩ [48]).1 = some ⟨5⟩ ∧
      (RemoteHandler.handlePopRequest
        (RemoteHandler.handlePopRequest ⟨[([48], ⟨5⟩)]⟩ [48]).2 [48]).1 = none :=
  ⟨by decide,
    remote_handler_request_correlation.2.2.2 ⟨[([48], ⟨5⟩)]⟩ [48] ⟨5⟩ (by decide)⟩

/-- C9.  The claim states `encode(decode(bytes)) == bytes` for every byte
sequence that decodes successfully as a `RemoteEntityRequest`.  This fails:
the wire format and the UUID text format are not canonical.  Concretely, the
buffer `[0x0A, 0x20] ++ 32 × '0'` carries the request id in the simple UUID
form (32 hexadecimal digits); `from_remote_envelope` accepts it
(`Uuid::from_str` normalises), and `as_remote_envelope` re-renders the id
hyphenated, yielding a different (longer) buffer. -/
theorem remote_entity_request_roundtrip_cex :
    ¬ ∀ (bytes : List Nat) (v : RemoteEntityRequest),
        RemoteEntityRequest.from_remote_envelope bytes = some (.ok v) →
        RemoteEntityRequest.as_remote_envelope v = bytes := by
  intro hall
  have h := hall (10 :: 32 :: List.replicate 32 48)
    ⟨hyphenate (List.replicate 32 48), [], [], [], none, 0⟩ (by rfl)
  exact absurd h (by decide)

/-- C9 (amended).  The round-trip law holds on canonical encodings: decoding
the encoding of any well-formed `RemoteEntityRequest` yields the value back,
hence `encode(decode(bytes)) == bytes` whenever `bytes` is itself produced
by `as_remote_envelope`; it does not hold for arbitrary successfully
decoding buffers. -/
theorem remote_entity_request_roundtrip (m : RemoteEntityRequest) (hwf : m.wf) :
    RemoteEntityRequest.from_remote_envelope (RemoteEntityRequest.as_remote_envelope m) =
        some (.ok m) ∧
      ∀ v, RemoteEntityRequest.from_remote_envelope
          (RemoteEntityRequest.as_remote_envelope m) = some (.ok v) →
        RemoteEntityRequest.as_remote_envelope v = RemoteEntityRequest.as_remote_envelope m := by
  have h := from_as_roundtrip m hwf
  refine ⟨h, ?_⟩
  intro v hv
  rw [h] at hv
  have hmv : m = v := by simpa using hv
  rw [hmv]

/-- Witness for C9 (amended): a concrete well-formed request round-trips. -/
theorem remote_entity_request_roundtrip_witness :
    RemoteEntityRequest.wf ⟨hyphenate (List.replicate 32 48), [97], [116], [5], none, 3⟩ ∧
      RemoteEntityRequest.from_remote_envelope (RemoteEntityRequest.as_remote_envelope
        ⟨hyphenate (List.replicate 32 48), [97], [116], [5], none, 3⟩) =
        some (.ok ⟨hyphenate (List.replicate 32 48), [97], [116], [5], none, 3⟩) := by
  have hwf : RemoteEntityRequest.wf
      ⟨hyphenate (List.replicate 32 48), [97], [116], [5], none, 3⟩ := by
    refine ⟨by decide, by decide, by decide, by decide, by decide, by decide, ?_, by decide⟩
    intro r hr
    simp at hr
  exact ⟨hwf, (remote_entity_request_roundtrip _ hwf).1⟩

/-- C10.  Decoding a remote frame is not total in its error channel: when the
protobuf layer parses but the `request_id` field is not a valid UUID string,
`RemoteEntityRequest::from_remote_envelope` aborts in
`Uuid::from_str(..).unwrap()` (modelled `none`) instead of returning
`DeserializationErr`; and when a `Pong` arrives whose payload fails protobuf
parsing, the `PingTick` reply task aborts in
`Pong::parse_from_bytes(..).unwrap()` instead of producing a `PingResult`. -/
theorem decode_unwrap_aborts :
    (∀ (bytes : List Nat) (p : ProtoRemoteEntityRequest),
        protoParseRemoteEntityRequest bytes = some p →
        uuidFromBytes p.request_id = none →
        RemoteEntityRequest.from_remote_envelope bytes = none) ∧
      ∀ bytes : List Nat, protoParsePong bytes = none →
        ∀ rtt ts : Nat, pingTaskResult rtt ts (.respOk bytes) = none := by
  constructor
  · intro bytes p hp hu
    unfold RemoteEntityRequest.from_remote_envelope
    rw [hp]
    simp only []
    rw [hu]
  · intro bytes hb rtt ts
    have e : pingTaskResult rtt ts (.respOk bytes) =
        (protoParsePong bytes).map (fun pong => .ok pong rtt ts) := rfl
    rw [e, hb]
    rfl

/-- Witness for C10: the buffer `[0x0A, 0x01, 'x']` parses at the protobuf
layer with request_id `"x"`, which is not a UUID, so decoding aborts
(no `DeserializationErr` is produced); the truncated `Pong` payload `[0x0A]`
fails protobuf parsing, so the ping reply task aborts. -/
theorem decode_unwrap_aborts_witness :
    protoParseRemoteEntityRequest [10, 1, 120] = some ⟨[120], [], [], [], none, 0⟩ ∧
      uuidFromBytes [120] = none ∧
      RemoteEntityRequest.from_remote_envelope [10, 1, 120] = none ∧
      protoParsePong [10] = none ∧
      pingTaskResult 1 2 (.respOk [10]) = none := by
  refine ⟨by rfl, by rfl, ?_, by rfl, ?_⟩
  · exact decode_unwrap_aborts.1 [10, 1, 120] ⟨[120], [], [], [], none, 0⟩ (by rfl) (by rfl)
  · exact decode_unwrap_aborts.2 [10] (by rfl) 1 2

/-- C1.  The `EntityRequest` handler of the `ShardHost` performs exactly the
claimed case analysis on the shard id computed from the request's actor id:
a hosted shard in `Starting` buffers the request; a hosted `Ready` shard is
forwarded the request; a shard in `remote_shards` gets the request wrapped
in a `RemoteEntityRequest` carrying a fresh registered `RequestId`; an
unallocated shard with a known leader buffers the request in
`requests_pending_shard_allocation[shard_id]` and sends
`AllocateShard(shard_id)`, whose `Allocated` answer self-notifies
`ShardAllocated`; without a leader the request joins
`requests_pending_leader_allocation`.  No branch drops the request. -/
theorem shard_host_entity_request_routing (h : ShardHost) (hasLeader : Bool)
    (msg : EntityRequest) :
    (∀ buf, lookupKey (h.allocate msg.actor_id) h.hosted_shards = some (.starting buf) →
      (h.handleEntityRequest hasLeader msg).2 = [] ∧
        lookupKey (h.allocate msg.actor_id)
            (h.handleEntityRequest hasLeader msg).1.hosted_shards =
          some (.starting (buf ++ [msg]))) ∧
      (∀ a, lookupKey (h.allocate msg.actor_id) h.hosted_shards = some (.ready a) →
        (h.handleEntityRequest hasLeader msg).2 = [.forwardToShard a msg] ∧
          ∀ s, lookupKey s (h.handleEntityRequest hasLeader msg).1.hosted_shards =
            lookupKey s h.hosted_shards) ∧
      (∀ r, lookupKey (h.allocate msg.actor_id) h.hosted_shards = none →
        lookupKey (h.allocate msg.actor_id) h.remote_shards = some r →
        h.handleEntityRequest hasLeader msg = (h, [.sendRemote r msg])) ∧
      (lookupKey (h.allocate msg.actor_id) h.hosted_shards = none →
        lookupKey (h.allocate msg.actor_id) h.remote_shards = none → hasLeader = true →
        (h.handleEntityRequest hasLeader msg).2 =
            [.sendAllocateShard (h.allocate msg.actor_id)] ∧
          lookupKey (h.allocate msg.actor_id)
              (h.handleEntityRequest hasLeader msg).1.requests_pending_shard_allocation =
            some ((lookupKey (h.allocate msg.actor_id)
                h.requests_pending_shard_allocation).getD [] ++ [msg])) ∧
      (lookupKey (h.allocate msg.actor_id) h.hosted_shards = none →
        lookupKey (h.allocate msg.actor_id) h.remote_shards = none → hasLeader = false →
        (h.handleEntityRequest hasLeader msg).2 = [] ∧
          (h.handleEntityRequest hasLeader msg).1.requests_pending_leader_allocation =
            h.requests_pending_leader_allocation ++ [msg]) ∧
      (msg ∈ (h.handleEntityRequest hasLeader msg).1.pendingRequests ∨
        msg ∈ actionRequests (h.handleEntityRequest hasLeader msg).2) ∧
      (∀ (fresh : Uuid) (origin : NodeId) (req : EntityRequest),
        (remote_entity_request fresh origin req).1 = fresh ∧
          (remote_entity_request fresh origin req).2 =
            ⟨fresh, req.actor_id, req.message_type, req.message, req.recipe, origin⟩) ∧
      (∀ (t : RemoteHandler) (fresh : Uuid) (sink : RemoteRequest),
        lookupKey fresh (t.handlePushRequest fresh sink).requests = some sink) ∧
      (∀ (s : ShardId) (n : NodeId),
        allocateShardCallback (some (.allocated s n)) = some ⟨s, n⟩) ∧
      allocateShardCallback none = none ∧
      allocateShardCallback (some .notAllocated) = none := by
  refine ⟨?_, ?_, ?_, ?_, ?_, ?_, ?_, ?_, ?_, rfl, rfl⟩
  · intro buf hlk
    rw [handleEntityRequest_hosted h hasLeader msg _ hlk]
    exact ⟨rfl, lookupKey_insertKey_self _ _ _⟩
  · intro a hlk
    rw [handleEntityRequest_hosted h hasLeader msg _ hlk]
    refine ⟨rfl, ?_⟩
    intro s
    by_cases hs : s = h.allocate msg.actor_id
    · subst hs
      rw [lookupKey_insertKey_self]
      exact hlk.symm
    · exact lookupKey_insertKey_ne hs _ _
  · intro r h1 h2
    exact handleEntityRequest_remote h hasLeader msg r h1 h2
  · intro h1 h2 hl
    subst hl
    rw [handleEntityRequest_alloc h msg h1 h2]
    exact ⟨rfl, lookupKey_insertKey_self _ _ _⟩
  · intro h1 h2 hl
    subst hl
    rw [handleEntityRequest_noleader h msg h1 h2]
    exact ⟨rfl, rfl⟩
  · cases hlk : lookupKey (h.allocate msg.actor_id) h.hosted_shards with
    | some shard =>
      cases shard with
      | starting buf =>
        left
        rw [handleEntityRequest_hosted h hasLeader msg _ hlk]
        exact mem_pendingRequests_hosted h _ (buf ++ [msg]) msg (by simp)
      | ready a =>
        right
        rw [handleEntityRequest_hosted h hasLeader msg _ hlk]
        simp [actionRequests, ShardHost.handle_request]
    | none =>
      cases hrm : lookupKey (h.allocate msg.actor_id) h.remote_shards with
      | some r =>
        right
        rw [handleEntityRequest_remote h hasLeader msg r hlk hrm]
        simp [actionRequests]
      | none =>
        left
        by_cases hl : hasLeader
        · subst hl
          rw [handleEntityRequest_alloc h msg hlk hrm]
          exact mem_pendingRequests_alloc h _ _ msg (by simp)
        · rw [show hasLeader = false by simp at hl; exact hl]
          rw [handleEntityRequest_noleader h msg hlk hrm]
          exact mem_pendingRequests_leader h msg
  · intro fresh origin req
    exact ⟨rfl, rfl⟩
  · intro t fresh sink
    exact lookupKey_insertKey_self _ _ _
  · intro s n
    rfl

/-- Witness for C1: a host that knows shard 7 remotely forwards a concrete
request as a remote entity request. -/
theorem shard_host_entity_request_routing_witness :
    ShardHost.handleEntityRequest ⟨fun _ => 7, [], [(7, 42)], [], []⟩ true
        ⟨[97], [], [], none, none⟩ =
      (⟨fun _ => 7, [], [(7, 42)], [], []⟩,
        [.sendRemote 42 ⟨[97], [], [], none, none⟩]) :=
  (shard_host_entity_request_routing ⟨fun _ => 7, [], [(7, 42)], [], []⟩ true
    ⟨[97], [], [], none, none⟩).2.2.1 42 (by decide) (by decide)

/-- C5.  `Handler<GetActorNode>` computes the directory node by the
consistent-hash lookup (falling back to the local node when no nodes are
configured); it answers from the local `actors` table when a cached entry
exists or the directory node is local, and otherwise registers a fresh
`RequestId` and sends a `FindActor` session event carrying that id to the
directory node; the correlated `ActorAddress` response answers the caller,
with a zero node-id translated to `none` (not found). -/
theorem get_actor_node_directory_lookup (st : RemoteRegistry) (id : ActorId) (fresh : Uuid) :
    (st.getByKey id = none → (st.getByKey id).getD st.node_id = st.node_id) ∧
      ((lookupKey id st.actors).isSome = true ∨
          (st.getByKey id).getD st.node_id = st.node_id →
        handleGetActorNode st id fresh = .answerLocal (lookupKey id st.actors)) ∧
      (¬ ((lookupKey id st.actors).isSome = true ∨
          (st.getByKey id).getD st.node_id = st.node_id) →
        handleGetActorNode st id fresh =
          .remoteLookup ((st.getByKey id).getD st.node_id) fresh
            (.findActor (uuidToBytes fresh) id)) ∧
      (∀ bytes addr, protoParseActorAddress bytes = some addr →
        getActorNodeTask (.received (.ok bytes)) = .sent (findActorResponse addr)) ∧
      (∀ addr : ProtoActorAddress, addr.node_id = 0 → findActorResponse addr = none) ∧
      ∀ addr : ProtoActorAddress, addr.node_id ≠ 0 →
        findActorResponse addr = some addr.node_id := by
  refine ⟨?_, ?_, ?_, ?_, ?_, ?_⟩
  · intro hnone
    rw [hnone]
    rfl
  · intro hcond
    unfold handleGetActorNode
    rw [if_pos hcond]
  · intro hcond
    unfold handleGetActorNode
    rw [if_neg hcond]
  · intro bytes addr hp
    have e : getActorNodeTask (.received (.ok bytes)) =
        (match protoParseActorAddress bytes with
          | some a => .sent (findActorResponse a)
          | none => .aborted) := rfl
    rw [e, hp]
  · intro addr h0
    unfold findActorResponse
    rw [if_pos h0]
  · intro addr h0
    unfold findActorResponse
    rw [if_neg h0]

/-- Witness for C5: with directory node 2 ≠ local node 1 and no cached
entry, the handler sends `FindActor` under the fresh id; a response with
node id 0 answers "not found". -/
theorem get_actor_node_directory_lookup_witness :
    handleGetActorNode ⟨1, fun _ => some 2, []⟩ [97] [48] =
        .remoteLookup 2 [48] (.findActor [48] [97]) ∧
      findActorResponse ⟨[], 0, []⟩ = none :=
  ⟨(get_actor_node_directory_lookup ⟨1, fun _ => some 2, []⟩ [97] [48]).2.2.1 (by decide),
    (get_actor_node_directory_lookup ⟨1, fun _ => some 2, []⟩ [97] [48]).2.2.2.2.1
      ⟨[], 0, []⟩ rfl⟩

/-- C6.  A cross-node actor lookup that receives no correlated response
within the caller's deadline surfaces `ActorUnavailable` as an error value
to the caller (the caller-side deadline is modelled from the spec, its code
being outside src/); on the registry side the spawned task is still waiting
on the oneshot at that point — in particular it has not aborted, since its
abort paths require a received response or a closed channel. -/
theorem actor_lookup_timeout_unavailable :
    actorLookupAwait none = .error .ActorUnavailable ∧
      (∀ r : Option NodeId, actorLookupAwait (some r) = .ok r) ∧
      getActorNodeTask .pending = .stillWaiting ∧
      getActorNodeTask .pending ≠ .aborted :=
  ⟨rfl, fun _ => rfl, rfl, by decide⟩

/-- C7.  The claim states that a node whose outbound `Connect` handshake
fails is not added to the membership table and no `NodeAdded` event is
published for it.  This is false on the code: after the connect phase,
`Handler<RegisterNodes>` loops over every supplied node, publishes
`NodeAdded` and calls `self.nodes.add(node)` unconditionally
(handler.rs lines 109-123). -/
theorem register_nodes_failed_handshake_cex :
    ¬ ∀ (self_id : NodeId) (table : List RemoteNode)
        (handshake : RemoteNode → Option RemoteNode) (nodes : List RemoteNode)
        (n : RemoteNode), n ∈ nodes → handshake n = none →
        isRegistered n.id table = false → n.id ≠ self_id →
        isRegistered n.id (handleRegisterNodes self_id table handshake nodes).1 = false ∧
          ClusterEvent.nodeAdded n.id ∉ (handleRegisterNodes self_id table handshake nodes).2 := by
  intro hall
  have h := hall 1 [] (fun _ => none) [⟨2, [], [], none⟩] ⟨2, [], [], none⟩
    (by simp) rfl (by decide) (by decide)
  exact absurd h (by decide)

/-- C7 (amended).  The connect phase registers only nodes whose handshake
succeeded (with their possibly enriched descriptors), but the final loop of
`Handler<RegisterNodes>` adds every supplied node to the membership table
and publishes a `NodeAdded` cluster event for it, regardless of handshake
outcome. -/
theorem register_nodes_membership (self_id : NodeId) (table : List RemoteNode)
    (handshake : RemoteNode → Option RemoteNode) (nodes : List RemoteNode) :
    ∀ n ∈ nodes,
      isRegistered n.id (handleRegisterNodes self_id table handshake nodes).1 = true ∧
        ClusterEvent.nodeAdded n.id ∈ (handleRegisterNodes self_id table handshake nodes).2 := by
  intro n hn
  constructor
  · unfold handleRegisterNodes
    exact foldl_addNode_mem nodes _ n hn
  · simp only [handleRegisterNodes, List.mem_map]
    exact ⟨n, hn, rfl⟩

/-- Witness for C7 (amended): a node whose handshake failed still ends up
registered, with its event published. -/
theorem register_nodes_membership_witness :
    isRegistered 2 (handleRegisterNodes 1 [] (fun _ => none) [⟨2, [], [], none⟩]).1 = true ∧
      ClusterEvent.nodeAdded 2 ∈ (handleRegisterNodes 1 [] (fun _ => none)
        [⟨2, [], [], none⟩]).2 :=
  register_nodes_membership 1 [] (fun _ => none) [⟨2, [], [], none⟩]
    ⟨2, [], [], none⟩ (by simp)

/-- C8.  The claim's `Disconnected` branch reads: if the client state is not
`Connected` and a remote node id is known, the heartbeat actor is informed
with `PingResult::Disconnected`.  This is false when the client holds no
state at all (`self.state == None`): the handler returns without notifying
anyone (ping.rs lines 52-54), even with a known remote node id. -/
theorem ping_tick_no_state_cex :
    ¬ ∀ (c : RemoteClient) (fresh : Uuid) (writeOk : Bool) (nid : NodeId),
        (∀ n, c.state ≠ some (.connected n)) → c.remote_node_id = some nid →
        handlePingTick c true fresh writeOk = .notifyDisconnected nid := by
  intro hall
  have h := hall ⟨none, some 5⟩ [] true 5 (fun n => by simp) rfl
  exact absurd h (by decide)

/-- C8 (amended).  With a heartbeat actor configured: in `Connected` state a
fresh `RequestId` is registered and a `Ping` carrying it is written, and the
spawned reply task informs the heartbeat actor with `Ok(pong, rtt,
timestamp)` when a well-formed `Pong` arrives within `ping_timeout`,
`Timeout` when the deadline elapses, and `Err` on an error response (or a
closed channel); if the client holds a state other than `Connected` and a
remote node id is known, the heartbeat actor is informed `Disconnected` and
no `Ping` is sent; if the client holds no state at all, the handler returns
without informing the heartbeat actor.  Without a heartbeat actor the tick
is skipped. -/
theorem ping_tick_heartbeat (c : RemoteClient) (fresh : Uuid) (writeOk : Bool)
    (rtt ts : Nat) :
    handlePingTick c false fresh writeOk = .skippedNoHeartbeat ∧
      (∀ nid, c.state = some (.connected nid) → writeOk = true →
        handlePingTick c true fresh writeOk =
          .pingWritten nid fresh (.ping (uuidToBytes fresh))) ∧
      (∀ nid, c.state = some (.connected nid) → writeOk = false →
        handlePingTick c true fresh writeOk = .pingWriteFailed fresh) ∧
      (∀ s nid, c.state = some s → (∀ n, s ≠ .connected n) →
        c.remote_node_id = some nid →
        handlePingTick c true fresh writeOk = .notifyDisconnected nid) ∧
      (c.state = none → handlePingTick c true fresh writeOk = .skippedNoState) ∧
      pingTaskResult rtt ts .timeout = some .timeout ∧
      (∀ bytes, pingTaskResult rtt ts (.respErr bytes) = some .err) ∧
      pingTaskResult rtt ts .chanClosed = some .err ∧
      ∀ bytes pong, protoParsePong bytes = some pong →
        pingTaskResult rtt ts (.respOk bytes) = some (.ok pong rtt ts) := by
  obtain ⟨st, rn⟩ := c
  refine ⟨rfl, ?_, ?_, ?_, ?_, rfl, fun bytes => rfl, rfl, ?_⟩
  · intro nid hst hw
    simp only at hst
    subst hst hw
    rfl
  · intro nid hst hw
    simp only at hst
    subst hst hw
    rfl
  · intro s nid hst hs hrn
    simp only at hst hrn
    subst hst hrn
    cases s with
    | connected n => exact absurd rfl (hs n)
    | idle => rfl
    | connecting => rfl
    | quarantined => rfl
  · intro hst
    simp only at hst
    subst hst
    rfl
  · intro bytes pong hp
    have e : pingTaskResult rtt ts (.respOk bytes) =
        (protoParsePong bytes).map (fun pg => .ok pg rtt ts) := rfl
    rw [e, hp]
    rfl

/-- Witness for C8 (amended): a connected client with a successful write
sends the ping under the fresh id; a quarantined client with a known node id
notifies `Disconnected`. -/
theorem ping_tick_heartbeat_witness :
    handlePingTick ⟨some (.connected 9), some 9⟩ true [48] true =
        .pingWritten 9 [48] (.ping [48]) ∧
      handlePingTick ⟨some .quarantined, some 9⟩ true [48] true =
        .notifyDisconnected 9 :=
  ⟨(ping_tick_heartbeat ⟨some (.connected 9), some 9⟩ [48] true 0 0).2.1 9 rfl rfl,
    (ping_tick_heartbeat ⟨some .quarantined, some 9⟩ [48] true 0 0).2.2.2.1 .quarantined 9
      rfl (fun n => by simp) rfl⟩

end Coerce


